import Mathlib

/-!
Verification of the EIP-712 typed-data encoding library
(`src/eip712_structs.py` of the aevo-sdk repository) against its
natural-language specification.

The library is embedded shallowly:

* `FType` is the closed union of member types (`EIP712Type` subclasses and
  struct classes); a struct type carries its name and its ordered member list
  inline, mirroring the ordered class-attribute capture of
  `OrderedAttributesMeta`.
* `EValue` is the union of Python values that flow through the library:
  integers, booleans, byte strings, text strings, lists, `None`, and
  dict/struct-instance value mappings (a struct instance's `values` dict and
  a plain JSON dict are both `EValue.vstruct`, matching how `to_message`
  serialises instances to dicts and `__init__` re-wraps dicts).
* Keccak-256 is an external collaborator; every hashing operation is
  parametrised by `k : List Nat → List Nat`, the opaque `keccak` primitive.
* Python exceptions become `Except Err`; the `Err` constructors record which
  kind of Python exception the source raises on that path.
-/

/-- The kinds of exception raised by the source module. -/
inductive Err where
  | keyError
  | valueError
  | typeError
  | overflowError
  | attributeError
  | nameError
deriving DecidableEq, Repr

/-- Member types: the `EIP712Type` subclasses (`Address`, `Boolean`, `Bytes`,
`Int`, `Uint`, `String`, `Array`) plus struct classes (`EIP712Struct`
subclasses), which carry their name and ordered member list. -/
inductive FType where
  | address
  | boolean
  | bytes (length : Nat)
  | int (length : Nat)
  | uint (length : Nat)
  | string
  | array (member : FType) (fixedLength : Nat)
  | struct (name : String) (members : List (String × FType))
deriving Repr

/-- Python values handled by the library. `vnone` is Python `None`;
`vstruct` is a field-name-to-value mapping (both a struct instance's
`values` dict and a plain dict). -/
inductive EValue where
  | vint (i : Int)
  | vbool (b : Bool)
  | vbytes (bs : List Nat)
  | vstr (s : String)
  | varray (vs : List EValue)
  | vstruct (fields : List (String × EValue))
  | vnone
deriving Repr

mutual

/-- Structural equality of member types. Two struct types are the same
class in the model exactly when their name and full member list agree
(the model identifies classes with their definition). -/
def beqF : FType → FType → Bool
  | .address, .address => true
  | .boolean, .boolean => true
  | .bytes a, .bytes b => a == b
  | .int a, .int b => a == b
  | .uint a, .uint b => a == b
  | .string, .string => true
  | .array m l, .array m2 l2 => beqF m m2 && l == l2
  | .struct n ms, .struct n2 ms2 => n == n2 && beqFields ms ms2
  | _, _ => false

/-- Structural equality of member lists. -/
def beqFields : List (String × FType) → List (String × FType) → Bool
  | [], [] => true
  | (n, t) :: r, (n2, t2) :: r2 => n == n2 && beqF t t2 && beqFields r r2
  | _, _ => false

end

/-- Decimal digit character (used by Python string formatting of `int`). -/
def digitChar : Nat → Char
  | 0 => '0' | 1 => '1' | 2 => '2' | 3 => '3' | 4 => '4'
  | 5 => '5' | 6 => '6' | 7 => '7' | 8 => '8' | _ => '9'

/-- Decimal digit list, most significant first, by fuel-bounded division;
any fuel above the number of digits gives the full rendering. -/
def natCharsAux : Nat → Nat → List Char
  | 0, _ => []
  | fuel+1, n =>
    if n < 10 then [digitChar n]
    else natCharsAux fuel (n / 10) ++ [digitChar (n % 10)]

/-- Decimal digit list of a natural number, most significant first. -/
def natChars (n : Nat) : List Char := natCharsAux (n + 1) n

/-- Decimal rendering of a natural number (Python `f"{n}"`). -/
def natStr (n : Nat) : String := String.mk (natChars n)

/-- `type_name` of a member type, as computed by each `EIP712Type`
constructor (`f"uint{length}"`, `f"{member}[{len}]"`, the class name for
structs, and so on). -/
def typeNameF : FType → String
  | .address => "address"
  | .boolean => "bool"
  | .bytes 0 => "bytes"
  | .bytes (n+1) => "bytes" ++ natStr (n+1)
  | .int l => "int" ++ natStr l
  | .uint l => "uint" ++ natStr l
  | .string => "string"
  | .array m 0 => typeNameF m ++ "[]"
  | .array m (l+1) => typeNameF m ++ "[" ++ natStr (l+1) ++ "]"
  | .struct n _ => n

/-- Big-endian byte list of width `w` for a value `v` (Python
`v.to_bytes(w, byteorder="big")`, after the caller has checked range;
out-of-range high bits are cut, which never happens on checked paths). -/
def beBytes : Nat → Nat → List Nat
  | 0, _ => []
  | w+1, v => beBytes w (v / 256) ++ [v % 256]

/-- Big-endian bytes-to-integer conversion (eth_utils `to_int` on bytes). -/
def beToNat (bs : List Nat) : Nat :=
  bs.foldl (fun a b => a * 256 + b) 0

/-- UTF-8 bytes of a string (Python `text.encode()` used by
`keccak(text=...)`). -/
def utf8 (s : String) : List Nat :=
  s.toUTF8.data.toList.map (fun b => b.toNat)

/-- Value of a hexadecimal digit character, if it is one. -/
def hexDigitVal (c : Char) : Option Nat :=
  if '0' ≤ c ∧ c ≤ '9' then some (c.toNat - 48)
  else if 'a' ≤ c ∧ c ≤ 'f' then some (c.toNat - 87)
  else if 'A' ≤ c ∧ c ≤ 'F' then some (c.toNat - 55)
  else none

/-- Parse a hex string (optionally `0x`-prefixed) into a number, as
eth_utils conversions do; `none` models the `ValueError` on non-hex input
(including the empty digit string). -/
def hexToNat (s : String) : Option Nat :=
  let cs := s.data
  let cs := if cs.take 2 = ['0', 'x'] ∨ cs.take 2 = ['0', 'X'] then cs.drop 2 else cs
  if cs = [] then none
  else cs.foldlM (fun a c => (hexDigitVal c).map (fun d => a * 16 + d)) 0

/-- Hex digits to a byte string, as eth_utils `to_bytes(hexstr=...)`:
an odd-length digit string is left-padded with one `0` digit. -/
def hexToBytes (s : String) : Option (List Nat) :=
  let cs := s.data
  let cs := if cs.take 2 = ['0', 'x'] ∨ cs.take 2 = ['0', 'X'] then cs.drop 2 else cs
  let cs := if cs.length % 2 = 1 then '0' :: cs else cs
  let rec pairs : List Char → Option (List Nat)
    | [] => some []
    | c1 :: c2 :: rest => do
        let d1 ← hexDigitVal c1
        let d2 ← hexDigitVal c2
        let bs ← pairs rest
        pure ((d1 * 16 + d2) :: bs)
    | [_] => none
  pairs cs

/-- Dictionary lookup in a field-name/value association list
(Python `dict.get`). -/
def lookupV : List (String × EValue) → String → Option EValue
  | [], _ => none
  | (n, v) :: rest, key => if n = key then some v else lookupV rest key

theorem lookupV_sizeOf {vals : List (String × EValue)} {key : String} {v : EValue}
    (h : lookupV vals key = some v) : sizeOf v < sizeOf vals := by
  induction vals with
  | nil => simp [lookupV] at h
  | cons p rest ih =>
    obtain ⟨n, w⟩ := p
    simp only [lookupV] at h
    split at h
    · cases h
      simp only [List.cons.sizeOf_spec, Prod.mk.sizeOf_spec]
      omega
    · have := ih h
      simp only [List.cons.sizeOf_spec, Prod.mk.sizeOf_spec]
      omega

/-- A struct type: its class name and ordered member list. -/
abbrev STy := String × List (String × FType)

/-- Identity of struct classes (see `beqF`). -/
def beqS (a b : STy) : Bool := a.1 == b.1 && beqFields a.2 b.2

/-- Set membership used by `_gather_reference_structs` (`struct not in
struct_set`). -/
def containsS (l : List STy) (s : STy) : Bool := l.any (beqS s)

mutual

/-- One step of `_gather_reference_structs`: a member that is a struct
class and not yet in the set is added, and its own members are scanned in
turn. Non-struct members — including `Array` members whose member type is
a struct — are skipped, because the source filters on
`isinstance(m[1], type) and issubclass(m[1], EIP712Struct)` and an
`Array` instance is not a class. -/
def gatherMember (t : FType) (acc : List STy) : List STy :=
  match t with
  | .struct n ms => if containsS acc (n, ms) then acc else gatherFields ms (acc ++ [(n, ms)])
  | _ => acc
termination_by sizeOf t

/-- `_gather_reference_structs` over a member list. -/
def gatherFields (l : List (String × FType)) (acc : List STy) : List STy :=
  match l with
  | [] => acc
  | (_, t) :: rest => gatherFields rest (gatherMember t acc)
termination_by sizeOf l

end

/-- The non-recursive type signature
`f'{cls.type_name}({",".join(member_sigs)})'` of `_encode_type`. -/
def ownSig (name : String) (ms : List (String × FType)) : String :=
  name ++ "(" ++ String.intercalate "," (ms.map fun p => typeNameF p.2 ++ " " ++ p.1) ++ ")"

/-- `sorted(..., key=lambda s: s.type_name)` over gathered structs;
Python string comparison is byte-wise code-point order, as is `String.le`. -/
def sortByName (l : List STy) : List STy := l.mergeSort (fun a b => a.1 ≤ b.1)

/-- `EIP712Struct._encode_type`: the own signature, and when
`resolve_references` is set, the own signatures of the gathered reference
structs other than the type itself, sorted by type name and appended with
no separator. -/
def encType (name : String) (ms : List (String × FType)) (resolveRefs : Bool) : String :=
  let sig := ownSig name ms
  if resolveRefs then
    let refs := gatherFields ms []
    let sorted := sortByName (refs.filter (fun s => !beqS s (name, ms)))
    sorted.foldl (fun acc s => acc ++ ownSig s.1 s.2) sig
  else sig

/-- `EIP712Struct.encode_type`. -/
def encodeType (name : String) (ms : List (String × FType)) : String := encType name ms true

/-- `EIP712Struct.type_hash`: `keccak(text=encode_type())`. -/
def typeHash (k : List Nat → List Nat) (name : String) (ms : List (String × FType)) : List Nat :=
  k (utf8 (encodeType name ms))

/-- `Uint._encode_value`: validated against the declared bit width by
`value.to_bytes(length // 8, "big", signed=False)` (an `OverflowError`
when out of range), then widened to the 32-byte big-endian word. -/
def encodeUintVal (l : Nat) (i : Int) : Except Err (List Nat) :=
  if i < 0 ∨ (2 : Int) ^ (8 * (l / 8)) ≤ i then .error .overflowError
  else .ok (beBytes 32 i.toNat)

/-- `Int._encode_value`: validated by
`value.to_bytes(length // 8, "big", signed=True)`, then written as the
32-byte big-endian two's-complement word. -/
def encodeIntVal (l : Nat) (i : Int) : Except Err (List Nat) :=
  if i < -((2 : Int) ^ (8 * (l / 8) - 1)) ∨ (2 : Int) ^ (8 * (l / 8) - 1) ≤ i then
    .error .overflowError
  else .ok (beBytes 32 (i % (2 : Int) ^ 256).toNat)

/-- Tail of `Bytes._encode_value` once the value is a byte string:
dynamic bytes are keccak-hashed, static `bytesN` values longer than `N`
raise `ValueError`, shorter ones are right-padded to 32 bytes. -/
def bytesFinish (k : List Nat → List Nat) (len : Nat) (bs : List Nat) : Except Err (List Nat) :=
  if len = 0 then .ok (k bs)
  else if len < bs.length then .error .valueError
  else .ok (bs ++ List.replicate (32 - bs.length) 0)

mutual

/-- `encode_value` dispatched on the member type, i.e. the composition of
`EIP712Type.encode_value` (which substitutes the type's `none_val` for
`None`) with each subclass's `_encode_value`. A struct class used as an
encoder (only reachable through `Array.member_type`) encodes an instance
as its raw concatenated data, because `EIP712Struct.encode_value`
overrides the scalar path. Value/type combinations on which the Python
code raises (`AttributeError`/`TypeError`/`ValueError`/`OverflowError`)
are the `Err` cases. -/
def encodeValue (k : List Nat → List Nat) (t : FType) (v : EValue) : Except Err (List Nat) :=
  match t, v with
  | .address, .vnone => encodeUintVal 160 0
  | .address, .vint i => encodeUintVal 160 i
  | .address, .vbool b => encodeUintVal 160 (if b then 1 else 0)
  | .address, .vbytes bs => encodeUintVal 160 (beToNat bs)
  | .address, .vstr s =>
      match hexToNat s with
      | none => .error .valueError
      | some n => encodeUintVal 160 n
  | .address, _ => .error .attributeError
  | .boolean, .vnone => encodeUintVal 256 0
  | .boolean, .vbool false => encodeUintVal 256 0
  | .boolean, .vbool true => encodeUintVal 256 1
  | .boolean, _ => .error .valueError
  | .bytes len, .vnone => bytesFinish k len []
  | .bytes len, .vbytes bs => bytesFinish k len bs
  | .bytes len, .vstr s =>
      match hexToBytes s with
      | none => .error .valueError
      | some bs => bytesFinish k len bs
  | .bytes _, _ => .error .typeError
  | .int l, .vnone => encodeIntVal l 0
  | .int l, .vint i => encodeIntVal l i
  | .int l, .vbool b => encodeIntVal l (if b then 1 else 0)
  | .int _, _ => .error .attributeError
  | .uint l, .vnone => encodeUintVal l 0
  | .uint l, .vint i => encodeUintVal l i
  | .uint l, .vbool b => encodeUintVal l (if b then 1 else 0)
  | .uint _, _ => .error .attributeError
  | .string, .vnone => .ok (k (utf8 ""))
  | .string, .vstr s => .ok (k (utf8 s))
  | .string, _ => .error .typeError
  | .array m _, .vnone => .ok (k [])
  | .array m _, .varray vs =>
      match encodeList k m vs with
      | .error e => .error e
      | .ok es => .ok (k es.flatten)
  | .array _ _, _ => .error .typeError
  | .struct _ ms, .vstruct vals => encodeData k ms vals
  | .struct _ _, _ => .error .attributeError
termination_by (sizeOf t, sizeOf v)

/-- Element-wise encoding inside `Array._encode_value`
(`[encoder.encode_value(v) for v in value]`). -/
def encodeList (k : List Nat → List Nat) (m : FType) (vs : List EValue) : Except Err (List (List Nat)) :=
  match vs with
  | [] => .ok []
  | v :: rest =>
      match encodeValue k m v with
      | .error e => .error e
      | .ok e =>
          match encodeList k m rest with
          | .error e2 => .error e2
          | .ok es => .ok (e :: es)
termination_by (sizeOf m, sizeOf vs)

/-- `EIP712Struct.encode_value`: one 32-byte word per member in
declaration order — `hash_struct` of the nested instance for
struct-typed members, the member encoder otherwise. A struct member
whose stored value is not an instance (for example `None`) raises
`AttributeError` (`sub_struct.hash_struct()` on a non-instance); a member
name missing from the values dict raises `KeyError`
(`self.values[name]`). -/
def encodeData (k : List Nat → List Nat) (ms : List (String × FType)) (vals : List (String × EValue)) : Except Err (List Nat) :=
  match ms with
  | [] => .ok []
  | (n, .struct n2 ms2) :: rest =>
      match lookupV vals n with
      | some (.vstruct subVals) =>
          match encodeData k ms2 subVals with
          | .error e => .error e
          | .ok enc =>
              match encodeData k rest vals with
              | .error e => .error e
              | .ok tail => .ok (k (typeHash k n2 ms2 ++ enc) ++ tail)
      | _ => .error .attributeError
  | (n, t) :: rest =>
      match lookupV vals n with
      | none => .error .keyError
      | some v =>
          match encodeValue k t v with
          | .error e => .error e
          | .ok enc =>
              match encodeData k rest vals with
              | .error e => .error e
              | .ok tail => .ok (enc ++ tail)
termination_by (sizeOf ms, sizeOf vals)

end

/-- A struct instance: its class (name plus ordered member list) and its
`values` dictionary. -/
structure SInstance where
  tyName : String
  members : List (String × FType)
  values : List (String × EValue)

/-- `EIP712Struct.hash_struct`: `keccak(type_hash || encode_value)`. -/
def hashStruct (k : List Nat → List Nat) (name : String) (ms : List (String × FType))
    (vals : List (String × EValue)) : Except Err (List Nat) :=
  match encodeData k ms vals with
  | .error e => .error e
  | .ok enc => .ok (k (typeHash k name ms ++ enc))

/-- `hash_struct` of an instance. -/
def hashStructI (k : List Nat → List Nat) (s : SInstance) : Except Err (List Nat) :=
  hashStruct k s.tyName s.members s.values

/-- `EIP712Struct.signable_bytes` with an explicit domain:
`b"\x19\x01" + domain.hash_struct() + self.hash_struct()`. -/
def signableBytes (k : List Nat → List Nat) (self domain : SInstance) : Except Err (List Nat) :=
  match hashStructI k domain with
  | .error e => .error e
  | .ok dh =>
      match hashStructI k self with
      | .error e => .error e
      | .ok sh => .ok ([0x19, 0x01] ++ dh ++ sh)

/-- The global names the module `eip712_structs.py` defines (its imports
and top-level definitions). The name `eip712_structs` itself is not among
them: the module never imports itself. -/
def moduleGlobals : List String :=
  ["functools", "json", "operator", "re", "OrderedDict", "defaultdict",
   "JSONEncoder", "Any", "List", "NamedTuple", "Tuple", "Type", "Union",
   "to_bytes", "to_hex", "to_int", "keccak", "default_domain",
   "EIP712Type", "Array", "Address", "Boolean", "Bytes", "Int", "String",
   "Uint", "solidity_type_map", "from_solidity_type",
   "OrderedAttributesMeta", "EIP712Struct", "StructTuple",
   "BytesJSONEncoder", "make_domain"]

/-- `EIP712Struct._assert_domain`: a passed domain is used directly;
otherwise the code evaluates `eip712_structs.default_domain`, which first
resolves the global name `eip712_structs` — absent from the module's
globals, so the lookup raises `NameError` before `default_domain` is ever
read. -/
def assertDomain (domain : Option SInstance) (defaultDomain : Option SInstance) :
    Except Err SInstance :=
  match domain with
  | some d => .ok d
  | none =>
      if "eip712_structs" ∈ moduleGlobals then
        match defaultDomain with
        | some d => .ok d
        | none => .error .valueError
      else .error .nameError

/-- `signable_bytes` with the domain parameter optional, falling back to
the module-level default through `_assert_domain`. -/
def signableBytesOpt (k : List Nat → List Nat) (self : SInstance)
    (domain : Option SInstance) (defaultDomain : Option SInstance) : Except Err (List Nat) :=
  match assertDomain domain defaultDomain with
  | .error e => .error e
  | .ok d => signableBytes k self d

/-- `EIP712Struct.__init__`: every declared member receives
`kwargs.get(name)` (`None` when absent); a dict value is converted by
calling the member type on it, which constructs the nested instance for a
struct member and raises `TypeError` for any other member type (scalar
and `Array` instances are not callable). -/
def mkValues (mems : List (String × FType)) (kwargs : List (String × EValue)) :
    Except Err (List (String × EValue)) :=
  match mems with
  | [] => .ok []
  | (n, t) :: rest =>
      match lookupV kwargs n, t with
      | some (.vstruct vals), .struct _ ms2 =>
          match mkValues ms2 vals with
          | .error e => .error e
          | .ok sub =>
              match mkValues rest kwargs with
              | .error e => .error e
              | .ok tail => .ok ((n, EValue.vstruct sub) :: tail)
      | some (.vstruct _), _ => .error .typeError
      | some v, _ =>
          match mkValues rest kwargs with
          | .error e => .error e
          | .ok tail => .ok ((n, v) :: tail)
      | none, _ =>
          match mkValues rest kwargs with
          | .error e => .error e
          | .ok tail => .ok ((n, EValue.vnone) :: tail)
termination_by sizeOf mems

/-- Construct an instance of a struct class from keyword arguments
(`MyStruct(**kwargs)`). -/
def mkInstance (name : String) (mems : List (String × FType))
    (kwargs : List (String × EValue)) : Except Err SInstance :=
  match mkValues mems kwargs with
  | .error e => .error e
  | .ok vals => .ok ⟨name, mems, vals⟩

/-- `make_domain`: raises `ValueError` when every argument is absent;
otherwise declares `EIP712Domain` with one member per supplied argument,
in the fixed order name, version, chainId, verifyingContract, salt, and
instantiates it with the supplied values. -/
def makeDomain (name version : Option String) (chainId : Option Int)
    (verifyingContract salt : Option EValue) : Except Err SInstance :=
  if name.isNone ∧ version.isNone ∧ chainId.isNone ∧ verifyingContract.isNone ∧ salt.isNone then
    .error .valueError
  else
    let mems : List (String × FType) :=
      (if name.isSome then [("name", FType.string)] else []) ++
      (if version.isSome then [("version", FType.string)] else []) ++
      (if chainId.isSome then [("chainId", FType.uint 256)] else []) ++
      (if verifyingContract.isSome then [("verifyingContract", FType.address)] else []) ++
      (if salt.isSome then [("salt", FType.bytes 32)] else [])
    let kwargs : List (String × EValue) :=
      (match name with | some s => [("name", EValue.vstr s)] | none => []) ++
      (match version with | some s => [("version", EValue.vstr s)] | none => []) ++
      (match chainId with | some i => [("chainId", EValue.vint i)] | none => []) ++
      (match verifyingContract with | some v => [("verifyingContract", v)] | none => []) ++
      (match salt with | some v => [("salt", v)] | none => [])
    mkInstance "EIP712Domain" mems kwargs

/-- Member names of a struct class
(`{tup[0] for tup in cls.get_members()}`). -/
def memberNames (ms : List (String × FType)) : List String := ms.map (·.1)

/-- `EIP712Struct.__getitem__`: `_assert_key_is_member` raises `KeyError`
for a name the class does not declare, then the values dict is read. -/
def getItem (inst : SInstance) (key : String) : Except Err EValue :=
  if key ∈ memberNames inst.members then
    match lookupV inst.values key with
    | some v => .ok v
    | none => .error .keyError
  else .error .keyError

/-- Update of the values dict (`self.values.__setitem__`). -/
def setV : List (String × EValue) → String → EValue → List (String × EValue)
  | [], key, v => [(key, v)]
  | (n, w) :: rest, key, v =>
      if n = key then (n, v) :: rest else (n, w) :: setV rest key v

/-- Declared member type of a field name. -/
def lookupF : List (String × FType) → String → Option FType
  | [], _ => none
  | (n, t) :: rest, key => if n = key then some t else lookupF rest key

/-- `EIP712Struct.__setitem__`: `_assert_key_is_member` raises `KeyError`
for an undeclared name; `_assert_property_type` then raises `ValueError`
unless the value fits the declared member type (for a struct member the
source additionally compares the instance's own non-recursive signature,
which in this model is carried by the declared type itself; for other
members it attempts `typ.encode_value(value)`). -/
def setItem (k : List Nat → List Nat) (inst : SInstance) (key : String) (v : EValue) :
    Except Err SInstance :=
  if key ∈ memberNames inst.members then
    match lookupF inst.members key with
    | none => .error .keyError
    | some t =>
        match t with
        | .struct _ _ =>
            match v with
            | .vstruct _ => .ok ⟨inst.tyName, inst.members, setV inst.values key v⟩
            | _ => .error .valueError
        | _ =>
            match encodeValue k t v with
            | .ok _ => .ok ⟨inst.tyName, inst.members, setV inst.values key v⟩
            | .error _ => .error .valueError
  else .error .keyError

/-- `EIP712Struct.data_dict`: nested instances become plain dicts; every
other value — including lists — is passed through unchanged. -/
def dataDictL : List (String × EValue) → List (String × EValue)
  | [] => []
  | (n, .vstruct vals) :: rest => (n, .vstruct (dataDictL vals)) :: dataDictL rest
  | (n, v) :: rest => (n, v) :: dataDictL rest

/-- The wire-message dictionary produced by `to_message`. -/
structure WireMessage where
  primaryType : String
  types : List (String × List (String × String))
  domain : List (String × EValue)
  message : List (String × EValue)
deriving Repr

/-- Field list of a struct class in the `types` map:
`{"name": m[0], "type": m[1].type_name}` in declaration order. -/
def memberStrings (ms : List (String × FType)) : List (String × String) :=
  ms.map fun p => (p.1, typeNameF p.2)

/-- The `types` dict is keyed by type name; the struct set iterates in an
unspecified order in the source, determinised here as domain, message
type, then gathered references, first occurrence of each name kept. -/
def dedupByName : List STy → List STy
  | [] => []
  | s :: rest => s :: dedupByName (rest.filter (fun x => x.1 ≠ s.1))
termination_by l => l.length
decreasing_by
  simp only [List.length_cons]
  exact Nat.lt_succ_of_le (List.length_filter_le _ _)

/-- `EIP712Struct.to_message`: the struct set is the domain, the struct
itself, and the struct's gathered references (the domain's references are
not gathered); `types` lists each one's fields, and `domain`/`message`
are the two `data_dict` forms. -/
def toMessage (self domain : SInstance) : WireMessage :=
  let structs : List STy :=
    dedupByName ([(domain.tyName, domain.members), (self.tyName, self.members)] ++
      gatherFields self.members [])
  { primaryType := self.tyName
  , types := structs.map (fun s => (s.1, memberStrings s.2))
  , domain := dataDictL domain.values
  , message := dataDictL self.values }

/-- `to_message` with the domain optional (`_assert_domain` fallback). -/
def toMessageOpt (self : SInstance) (domain : Option SInstance)
    (defaultDomain : Option SInstance) : Except Err WireMessage :=
  match assertDomain domain defaultDomain with
  | .error e => .error e
  | .ok d => .ok (toMessage self d)

/-- Numeric value of a decimal digit run (`int(...)` on regex digits). -/
def parseNatChars (cs : List Char) : Nat :=
  cs.foldl (fun a c => a * 10 + (c.toNat - 48)) 0

/-- The optional array suffix matched by `(\[(\d+)?\])?`: `none` when no
well-formed bracket group follows, `some none` for `[]`, `some (some n)`
for `[n]`. -/
def parseBracket (cs : List Char) : Option (Option Nat) :=
  match cs with
  | '[' :: more =>
      let bd := more.takeWhile Char.isDigit
      (match more.dropWhile Char.isDigit with
       | ']' :: _ => if bd.isEmpty then some none else some (some (parseNatChars bd))
       | _ => none)
  | _ => none

/-- `from_solidity_type`: the regex `([a-z]+)(\d+)?(\[(\d+)?\])?` is
matched at the start of the string (trailing text is ignored; the digit
class is modelled at its ASCII reading, which agrees with Python's
Unicode one on ASCII type strings — the round-trip and `from_message`
theorems assume ASCII type strings);
`.ok none` models the `None` return for an unmatched or unrecognised type
word, and `.error` models the exceptions the basic-type constructors
raise on a bad length (`ValueError` from `Bytes`/`Int`/`Uint`,
`TypeError` from `Address`/`Boolean`/`String` given any length). -/
def parseSolType (s : String) : Except Err (Option FType) :=
  let cs := s.data
  let w := cs.takeWhile (fun c => 'a' ≤ c ∧ c ≤ 'z')
  if w.isEmpty then .ok none
  else
    let rest1 := cs.dropWhile (fun c => 'a' ≤ c ∧ c ≤ 'z')
    let ds := rest1.takeWhile Char.isDigit
    let bracket := parseBracket (rest1.dropWhile Char.isDigit)
    let word := String.mk w
    let optLen : Option Nat := if ds.isEmpty then none else some (parseNatChars ds)
    if word ∉ ["address", "bool", "bytes", "int", "string", "uint"] then .ok none
    else
      let base : Except Err FType :=
        if word = "address" then
          match optLen with | none => .ok .address | some _ => .error .typeError
        else if word = "bool" then
          match optLen with | none => .ok .boolean | some _ => .error .typeError
        else if word = "bytes" then
          match optLen with
          | none => .ok (.bytes 0)
          | some n => if n = 0 then .ok (.bytes 0)
                      else if n ≤ 32 then .ok (.bytes n)
                      else .error .valueError
        else if word = "int" then
          match optLen with
          | none => .ok (.int 256)
          | some n => if 8 ≤ n ∧ n ≤ 256 ∧ n % 8 = 0 then .ok (.int n) else .error .valueError
        else if word = "uint" then
          match optLen with
          | none => .ok (.uint 256)
          | some n => if 8 ≤ n ∧ n ≤ 256 ∧ n % 8 = 0 then .ok (.uint n) else .error .valueError
        else
          match optLen with | none => .ok .string | some _ => .error .typeError
      match base with
      | .error e => .error e
      | .ok b =>
          match bracket with
          | none => .ok (some b)
          | some none => .ok (some (.array b 0))
          | some (some n) => .ok (some (.array b n))

/-- A member type as held by a class synthesised in `from_message`:
either a basic type from `from_solidity_type`, or a reference to another
synthesised class (possibly wrapped in an `Array`), installed in the
second pass. -/
inductive RType where
  | prim (t : FType)
  | ref (name : String)
  | refArray (name : String) (len : Nat)
deriving Repr

/-- The classes synthesised by `from_message`, by type name. -/
abbrev TEnv := List (String × List (String × RType))

/-- First-lookup in a name-keyed association list (Python dict access;
the modelled dicts carry distinct keys). -/
def lookupA {α : Type} : List (String × α) → String → Option α
  | [], _ => none
  | (n, v) :: rest, key => if n = key then some v else lookupA rest key

/-- `setattr` on a class dict: an existing attribute slot is updated in
place, a new name is appended (Python dicts preserve insertion order). -/
def setA {α : Type} : List (String × α) → String → α → List (String × α)
  | [], key, v => [(key, v)]
  | (n, w) :: rest, key, v =>
      if n = key then (n, v) :: rest else (n, w) :: setA rest key v

/-- First pass of `from_message` over one type's field list: each
field's declared type string goes through `from_solidity_type`
(constructor exceptions propagate) and the result — the basic type, or
`None` for a string left to the second pass — is `setattr`'d on the
synthesised class, so a repeated member name overwrites the earlier
slot; the unresolved strings are appended to the type's unfulfilled
list. -/
def pass1Attr : List (String × String) → List (String × Option RType) →
    List (String × String) →
    Except Err (List (String × Option RType) × List (String × String))
  | [], table, unful => .ok (table, unful)
  | (n, ts) :: rest, table, unful =>
      match parseSolType ts with
      | .error e => .error e
      | .ok (some t) => pass1Attr rest (setA table n (some (RType.prim t))) unful
      | .ok none => pass1Attr rest (setA table n none) (unful ++ [(n, ts)])

/-- First pass over the whole `types` map: a class dict per type, plus
the `defaultdict` of unfulfilled members, keyed in the order the types
first contribute one. -/
def pass1 : List (String × List (String × String)) →
    Except Err (List (String × List (String × Option RType)) ×
      List (String × List (String × String)))
  | [] => .ok ([], [])
  | (tn, mems) :: rest =>
      match pass1Attr mems [] [] with
      | .error e => .error e
      | .ok (table, unful) =>
          match pass1 rest with
          | .error e => .error e
          | .ok (tables, unfuls) =>
              .ok ((tn, table) :: tables,
                if unful.isEmpty then unfuls else (tn, unful) :: unfuls)

/-- The base name matched by the second-pass regex group
`([a-zA-Z0-9_]+)` at the start of a type string. -/
def baseNameOf (ts : String) : String :=
  String.mk (ts.data.takeWhile (fun c => c.isAlphanum ∨ c = '_'))

/-- The array suffix following the base name in the second-pass regex. -/
def bracketOf (ts : String) : Option (Option Nat) :=
  parseBracket (ts.data.dropWhile (fun c => c.isAlphanum ∨ c = '_'))

/-- Second-pass resolution of one unresolved field type string against
the synthesised class names, by the regex
`([a-zA-Z0-9_]+)(\[(\d+)?\])?`: a failed match raises (`match.group` on
`None`), an unknown base name raises `KeyError` (`structs[base]`), and a
bracket suffix wraps the class reference in an `Array`. -/
def resolveRef (typeNames : List String) (ts : String) : Except Err RType :=
  let nm := baseNameOf ts
  if nm.isEmpty then .error .attributeError
  else if nm ∈ typeNames then
    match bracketOf ts with
    | none => .ok (.ref nm)
    | some none => .ok (.refArray nm 0)
    | some (some n) => .ok (.refArray nm n)
  else .error .keyError

/-- Second pass over one type's unfulfilled members: each is resolved
by the reference regex (raising as `resolveRef` does) and `setattr`'d,
so the reference assignments land after — and overwrite — the first
pass's slots for the same name. -/
def pass2Attr (typeNames : List String) : List (String × String) →
    List (String × Option RType) → Except Err (List (String × Option RType))
  | [], table => .ok table
  | (n, ts) :: rest, table =>
      match resolveRef typeNames ts with
      | .error e => .error e
      | .ok rt => pass2Attr typeNames rest (setA table n (some rt))

/-- Second pass over the unfulfilled map, updating each type's class
dict in turn. -/
def pass2 (typeNames : List String) :
    List (String × List (String × String)) →
    List (String × List (String × Option RType)) →
    Except Err (List (String × List (String × Option RType)))
  | [], tables => .ok tables
  | (tn, unful) :: rest, tables =>
      match lookupA tables tn with
      | none => .error .keyError
      | some table =>
          match pass2Attr typeNames unful table with
          | .error e => .error e
          | .ok table2 => pass2 typeNames rest (setA tables tn table2)

/-- `get_members` of a synthesised class: the class-dict entries that
hold a type, in insertion order (the transient `None` placeholders are
excluded, as `get_members` filters on `isinstance`). -/
def attrMembers (table : List (String × Option RType)) : List (String × RType) :=
  table.filterMap (fun p => p.2.map (fun rt => (p.1, rt)))

theorem lookupA_sizeOf {vals : List (String × EValue)} {key : String} {v : EValue}
    (h : lookupA vals key = some v) : sizeOf v < sizeOf vals := by
  induction vals with
  | nil => simp [lookupA] at h
  | cons p rest ih =>
    obtain ⟨n, w⟩ := p
    simp only [lookupA] at h
    split at h
    · cases h
      simp only [List.cons.sizeOf_spec, Prod.mk.sizeOf_spec]
      omega
    · have := ih h
      simp only [List.cons.sizeOf_spec, Prod.mk.sizeOf_spec]
      omega

/-- Instantiation of a synthesised class (`primary_struct(**message)`):
as in `__init__`, each member takes `kwargs.get(name)`; a dict value on a
class-reference member constructs the referenced class recursively, and a
dict value on any other member raises `TypeError`. Values on `Array`
members — even lists of dicts — are stored unconverted. -/
def constructFields (env : TEnv) (mems : List (String × RType))
    (kwargs : List (String × EValue)) : Except Err (List (String × EValue)) :=
  match mems with
  | [] => .ok []
  | (n, rt) :: rest =>
      match h : lookupA kwargs n with
      | some (.vstruct vals) =>
          match rt with
          | .ref nm =>
              match lookupA env nm with
              | none => .error .keyError
              | some ms2 =>
                  match constructFields env ms2 vals with
                  | .error e => .error e
                  | .ok sub =>
                      match constructFields env rest kwargs with
                      | .error e => .error e
                      | .ok tail => .ok ((n, EValue.vstruct sub) :: tail)
          | _ => .error .typeError
      | some v =>
          match constructFields env rest kwargs with
          | .error e => .error e
          | .ok tail => .ok ((n, v) :: tail)
      | none =>
          match constructFields env rest kwargs with
          | .error e => .error e
          | .ok tail => .ok ((n, EValue.vnone) :: tail)
termination_by (sizeOf kwargs, sizeOf mems)
decreasing_by
  all_goals
    first
      | decreasing_tactic
      | (apply Prod.Lex.left
         have hlt := lookupA_sizeOf h
         simp only [EValue.vstruct.sizeOf_spec] at hlt
         omega)

/-- An instance of a class synthesised by `from_message`. -/
structure PInst where
  tyName : String
  values : List (String × EValue)
deriving Repr

/-- `EIP712Struct.from_message`: synthesise a class per declared type
name by `setattr`-ing each member in declaration order — a repeated
member name overwrites its slot, and the second pass's reference
assignments land last — then instantiate the primary type from
`message` and `EIP712Domain` from `domain`. A missing `primaryType` or
`EIP712Domain` entry raises `KeyError`. -/
def fromMessage (m : WireMessage) : Except Err (TEnv × PInst × PInst) :=
  match pass1 m.types with
  | .error e => .error e
  | .ok (tables, unfuls) =>
      match pass2 (m.types.map (·.1)) unfuls tables with
      | .error e => .error e
      | .ok tables2 =>
          let env : TEnv := tables2.map (fun p => (p.1, attrMembers p.2))
          match lookupA env m.primaryType, lookupA env "EIP712Domain" with
          | none, _ => .error .keyError
          | some _, none => .error .keyError
          | some pMems, some dMems =>
              match constructFields env pMems m.message with
              | .error e => .error e
              | .ok pVals =>
                  match constructFields env dMems m.domain with
                  | .error e => .error e
                  | .ok dVals =>
                      .ok (env, ⟨m.primaryType, pVals⟩, ⟨"EIP712Domain", dVals⟩)

/-- Expansion of a synthesised class's member list back into inline
member types, unfolding class references; the fuel bounds the nesting
depth and models the recursion the interpreter performs when the
synthesised classes are afterwards encoded or compared (on an acyclic
class graph any fuel at least the nesting depth gives the same result;
exhausted fuel models the interpreter's `RecursionError` on a cyclic
graph). -/
def resolveMembers (env : TEnv) : Nat → List (String × RType) → Except Err (List (String × FType))
  | _, [] => .ok []
  | fuel, (n, .prim t) :: rest =>
      match resolveMembers env fuel rest with
      | .error e => .error e
      | .ok tail => .ok ((n, t) :: tail)
  | fuel, (n, .ref nm) :: rest =>
      match fuel, lookupA env nm with
      | _, none => .error .keyError
      | 0, some _ => .error .attributeError
      | f + 1, some ms =>
          match resolveMembers env f ms with
          | .error e => .error e
          | .ok sub =>
              match resolveMembers env (f + 1) rest with
              | .error e => .error e
              | .ok tail => .ok ((n, FType.struct nm sub) :: tail)
  | fuel, (n, .refArray nm len) :: rest =>
      match fuel, lookupA env nm with
      | _, none => .error .keyError
      | 0, some _ => .error .attributeError
      | f + 1, some ms =>
          match resolveMembers env f ms with
          | .error e => .error e
          | .ok sub =>
              match resolveMembers env (f + 1) rest with
              | .error e => .error e
              | .ok tail => .ok ((n, FType.array (FType.struct nm sub) len) :: tail)
termination_by fuel mems => (fuel, sizeOf mems)

/-- `encode_type` of a synthesised instance, through `resolveMembers`. -/
def pEncodeType (env : TEnv) (fuel : Nat) (p : PInst) : Except Err String :=
  match lookupA env p.tyName with
  | none => .error .keyError
  | some rms =>
      match resolveMembers env fuel rms with
      | .error e => .error e
      | .ok ms => .ok (encodeType p.tyName ms)

/-- `encode_value` (the raw data words) of a synthesised instance. -/
def pEncodeData (k : List Nat → List Nat) (env : TEnv) (fuel : Nat) (p : PInst) :
    Except Err (List Nat) :=
  match lookupA env p.tyName with
  | none => .error .keyError
  | some rms =>
      match resolveMembers env fuel rms with
      | .error e => .error e
      | .ok ms => encodeData k ms p.values

/-- A stand-in for the external Keccak-256 collaborator, used to
instantiate theorems at concrete inputs: like the real hash it returns a
32-byte output for every input. -/
def k0 : List Nat → List Nat := fun _ => List.replicate 32 0

/-- The `none_val` each `EIP712Type` constructor registers. A struct
class's `none_val` is `None` itself (`EIP712Struct.__init__` passes
`None`). -/
def noneVal : FType → EValue
  | .address => .vint 0
  | .boolean => .vbool false
  | .bytes _ => .vbytes []
  | .int _ => .vint 0
  | .uint _ => .vint 0
  | .string => .vstr ""
  | .array _ _ => .varray []
  | .struct _ _ => .vnone

mutual

/-- Whether a member type is constructible by the library's constructors
(`Bytes` accepts lengths 0..32, `Int`/`Uint` accept multiples of 8 in
8..256). -/
def wfTypeB : FType → Bool
  | .address => true
  | .boolean => true
  | .string => true
  | .bytes n => decide (n ≤ 32)
  | .int l => decide (8 ≤ l) && decide (l ≤ 256) && decide (l % 8 = 0)
  | .uint l => decide (8 ≤ l) && decide (l ≤ 256) && decide (l % 8 = 0)
  | .array m _ => wfTypeB m
  | .struct _ ms => wfMembersB ms

/-- `wfTypeB` over a member list. -/
def wfMembersB : List (String × FType) → Bool
  | [] => true
  | (_, t) :: rest => wfTypeB t && wfMembersB rest

end

/-- The specification's per-field word of `encodeData`: the 32-byte
`hashStruct` of the nested instance when the field's type is a record,
the field's primitive or array encoding otherwise. -/
def specFieldWord (k : List Nat → List Nat) (vals : List (String × EValue)) :
    (String × FType) → Except Err (List Nat)
  | (n, .struct n2 ms2) =>
      match lookupV vals n with
      | some (.vstruct sub) => hashStruct k n2 ms2 sub
      | _ => .error .attributeError
  | (n, t) =>
      match lookupV vals n with
      | none => .error .keyError
      | some v => encodeValue k t v

/-- The specification's reading of `encodeData`: one `specFieldWord` per
field, in declaration order. -/
def specFieldWords (k : List Nat → List Nat) (vals : List (String × EValue)) :
    List (String × FType) → Except Err (List (List Nat))
  | [] => .ok []
  | m :: rest =>
      match specFieldWord k vals m with
      | .error e => .error e
      | .ok w =>
          match specFieldWords k vals rest with
          | .error e => .error e
          | .ok ws => .ok (w :: ws)

mutual

/-- Struct types referenced by a member type per the specification's
gathering rule: directly, or through an array member type, transitively
(duplicates retained; a later step deduplicates). -/
def specRefs : FType → List STy
  | .array m _ => specRefs m
  | .struct n ms => (n, ms) :: specRefsFields ms
  | _ => []

/-- `specRefs` over a member list. -/
def specRefsFields : List (String × FType) → List STy
  | [] => []
  | (_, t) :: rest => specRefs t ++ specRefsFields rest

end

mutual

/-- Struct types referenced per the code's gathering rule: only members
that are themselves struct classes are followed (an `Array` member whose
member type is a struct is skipped), transitively. -/
def specRefsDirect : FType → List STy
  | .struct n ms => (n, ms) :: specRefsDirectFields ms
  | _ => []

/-- `specRefsDirect` over a member list. -/
def specRefsDirectFields : List (String × FType) → List STy
  | [] => []
  | (_, t) :: rest => specRefsDirect t ++ specRefsDirectFields rest

end

/-- The struct classes appearing directly as member types of a member
list (the structs `_gather_reference_structs` inspects at one level). -/
def directStructs (ms : List (String × FType)) : List STy :=
  ms.filterMap (fun p =>
    match p.2 with
    | .struct n sm => some (n, sm)
    | _ => none)

/-- Structural deduplication, keeping first occurrences. -/
def dedupS : List STy → List STy
  | [] => []
  | s :: rest => s :: dedupS (rest.filter (fun x => !beqS x s))
termination_by l => l.length
decreasing_by
  simp only [List.length_cons]
  exact Nat.lt_succ_of_le (List.length_filter_le _ _)

/-- The claim's canonical signature with references resolved: the own
signature followed by the own signatures of the distinct referenced
structs (directly or through arrays), excluding the type itself, sorted
by type name. -/
def specSigClaim (name : String) (ms : List (String × FType)) : String :=
  (sortByName ((dedupS (specRefsFields ms)).filter (fun s => !beqS s (name, ms)))).foldl
    (fun acc s => acc ++ ownSig s.1 s.2) (ownSig name ms)

/-- As `specSigClaim`, but gathering only through members that are
themselves structs, as the code does. -/
def specSigDirect (name : String) (ms : List (String × FType)) : String :=
  (sortByName ((dedupS (specRefsDirectFields ms)).filter (fun s => !beqS s (name, ms)))).foldl
    (fun acc s => acc ++ ownSig s.1 s.2) (ownSig name ms)

/-- A one-field record type used for concrete instantiations. -/
def struct0 : SInstance := ⟨"Mail", [("x", FType.uint 256)], [("x", EValue.vint 1)]⟩

/-- A one-field domain (`make_domain(name="A")` shape) used for concrete
instantiations. -/
def dom0 : SInstance := ⟨"EIP712Domain", [("name", FType.string)], [("name", EValue.vstr "A")]⟩

/-- Whether a member type is a basic (non-array, non-struct) solidity
type, the kinds whose `type_name` survives the wire format unchanged. -/
def isPrimB : FType → Bool
  | .array _ _ => false
  | .struct _ _ => false
  | _ => true

/-- Whether a values dictionary is free of nested instances. -/
def noDictB (vals : List (String × EValue)) : Bool :=
  vals.all (fun p => match p.2 with | .vstruct _ => false | _ => true)

/-- Whether `from_solidity_type` applied to a member type's `type_name`
gives back the very same type. -/
def parseBackB (t : FType) : Bool :=
  match parseSolType (typeNameF t) with
  | .ok (some t2) => beqF t2 t
  | _ => false

/-- The class environment the two `from_message` passes synthesise from
the wire form of a flat record and domain pair. -/
def flatEnv (self domain : SInstance) : TEnv :=
  [(domain.tyName, domain.members.map fun p => (p.1, RType.prim p.2)),
   (self.tyName, self.members.map fun p => (p.1, RType.prim p.2))]

/-- A record instance whose single member is an array of a struct type,
with an assignable (empty list) value. -/
def bInst : SInstance :=
  ⟨"B", [("a", FType.array (FType.struct "A" [("x", FType.uint 256)]) 0)],
   [("a", EValue.varray [])]⟩

theorem beBytes_length (w : Nat) : ∀ v, (beBytes w v).length = w := by
  induction w with
  | zero => intro v; simp [beBytes]
  | succ n ih => intro v; simp [beBytes, ih]

theorem k0_length (bs : List Nat) : (k0 bs).length = 32 := by simp [k0]

theorem encodeUintVal_eq (l : Nat) (v : Int) (h8 : l % 8 = 0) :
    encodeUintVal l v =
      if v < 0 ∨ (2 : Int) ^ l ≤ v then .error .overflowError
      else .ok (beBytes 32 v.toNat) := by
  have h : 8 * (l / 8) = l := by omega
  simp [encodeUintVal, h]

/-! ### C4 — Uint range enforcement and 32-byte widening -/

/-- C4: for every declared bit width `b`, encoding `Uint(b)` with an
integer value fails with an `OverflowError` (the `EncodingError` of the
specification) exactly when the value does not fit in `b` bits as an
unsigned quantity, and otherwise yields the value widened to the full
32-byte big-endian word — independent of `b`. -/
theorem claim_C4 (k : List Nat → List Nat) (b : Nat) (v : Int)
    (hb : 8 ≤ b ∧ b ≤ 256 ∧ b % 8 = 0) :
    (encodeValue k (.uint b) (.vint v) = .error .overflowError ↔
      ¬(0 ≤ v ∧ v < (2 : Int) ^ b))
    ∧ ((0 ≤ v ∧ v < (2 : Int) ^ b) →
        encodeValue k (.uint b) (.vint v) = .ok (beBytes 32 v.toNat) ∧
        (beBytes 32 v.toNat).length = 32) := by
  have hv : encodeValue k (.uint b) (.vint v) = encodeUintVal b v := by
    simp [encodeValue]
  rw [hv, encodeUintVal_eq b v hb.2.2]
  constructor
  · constructor
    · intro h
      split at h
      · next hcond => omega
      · simp at h
    · intro h
      have : v < 0 ∨ (2 : Int) ^ b ≤ v := by omega
      simp [this]
  · intro h
    have : ¬(v < 0 ∨ (2 : Int) ^ b ≤ v) := by omega
    simp [this, beBytes_length]

/-- Witness for C4 at `b = 8`: value 256 fails, value 255 succeeds with a
32-byte word whose last byte is `0xFF`. -/
theorem claim_C4_witness :
    encodeValue k0 (.uint 8) (.vint 256) = .error .overflowError
    ∧ encodeValue k0 (.uint 8) (.vint 255) = .ok (beBytes 32 255)
    ∧ (beBytes 32 255).length = 32
    ∧ (beBytes 32 255).getLast? = some 0xFF :=
  ⟨(claim_C4 k0 8 256 (by decide)).1.mpr (by decide),
   ((claim_C4 k0 8 255 (by decide)).2 (by decide)).1,
   ((claim_C4 k0 8 255 (by decide)).2 (by decide)).2,
   by decide⟩

/-! ### C10 — fixed array lengths are never validated -/

/-- C10: encoding an `Array` type succeeds on a member-value list of any
length whenever every element encodes, returning the hash of the
concatenated element encodings; the declared fixed length plays no role
in encoding (it only appears in the type name). -/
theorem claim_C10 (k : List Nat → List Nat) (m : FType) (fl : Nat)
    (vs : List EValue) (es : List (List Nat))
    (h : encodeList k m vs = .ok es) :
    encodeValue k (.array m fl) (.varray vs) = .ok (k es.flatten)
    ∧ ∀ fl2, encodeValue k (.array m fl) (.varray vs) =
        encodeValue k (.array m fl2) (.varray vs) := by
  constructor
  · simp [encodeValue, h]
  · intro fl2
    simp [encodeValue]

/-- Witness for C10: a `uint256[3]` member encodes a 2-element list. -/
theorem claim_C10_witness :
    encodeValue k0 (.array (.uint 256) 3) (.varray [.vint 1, .vint 2]) =
      .ok (k0 ((beBytes 32 1 ++ beBytes 32 2 : List Nat)))
    ∧ encodeValue k0 (.array (.uint 256) 3) (.varray [.vint 1, .vint 2]) =
        encodeValue k0 (.array (.uint 256) 7) (.varray [.vint 1, .vint 2]) := by
  have h : encodeList k0 (.uint 256) [.vint 1, .vint 2] =
      .ok [beBytes 32 1, beBytes 32 2] := by
    simp [encodeList, encodeValue, encodeUintVal_eq]
  have := claim_C10 k0 (.uint 256) 3 [.vint 1, .vint 2] [beBytes 32 1, beBytes 32 2] h
  exact ⟨by simpa using this.1, this.2 7⟩

/-! ### C9 — the default-domain fallback always raises -/

/-- C9: calling `signable_bytes` or `to_message` with the domain omitted
always raises: the fallback dereferences the global name
`eip712_structs`, which the module never defines, so a `NameError` is
raised before `default_domain` is consulted — whatever `default_domain`
holds. -/
theorem claim_C9 (k : List Nat → List Nat) (r : SInstance) (dd : Option SInstance) :
    signableBytesOpt k r none dd = .error .nameError
    ∧ toMessageOpt r none dd = .error .nameError := by
  have hmem : ("eip712_structs" ∈ moduleGlobals) = False := by
    simp [moduleGlobals]
  constructor
  · simp [signableBytesOpt, assertDomain, hmem]
  · simp [toMessageOpt, assertDomain, hmem]

/-! ### C1 — signable_bytes is the 66-byte preimage, not the digest -/

theorem hashStruct_ok_length {k : List Nat → List Nat}
    (h32 : ∀ bs, (k bs).length = 32) {name ms vals h}
    (hok : hashStruct k name ms vals = .ok h) : h.length = 32 := by
  unfold hashStruct at hok
  split at hok
  · simp at hok
  · cases hok
    exact h32 _

/-- C1 (amended): `signable_bytes` returns the 66-byte Keccak preimage —
the 2-byte prefix `0x19 0x01` followed by `hash_struct` of the domain and
`hash_struct` of the record — without hashing it. Every caller in the
repository applies `keccak` to this value itself. -/
theorem claim_C1 (k : List Nat → List Nat) (h32 : ∀ bs, (k bs).length = 32)
    (r d : SInstance) (bs : List Nat) (h : signableBytes k r d = .ok bs) :
    ∃ dh sh, hashStructI k d = .ok dh ∧ hashStructI k r = .ok sh ∧
      bs = [0x19, 0x01] ++ dh ++ sh ∧ bs.length = 66 := by
  unfold signableBytes at h
  cases hd : hashStructI k d with
  | error e => rw [hd] at h; simp at h
  | ok dh =>
      rw [hd] at h
      cases hr : hashStructI k r with
      | error e => rw [hr] at h; simp at h
      | ok sh =>
          rw [hr] at h
          cases h
          refine ⟨dh, sh, rfl, rfl, rfl, ?_⟩
          have h1 : dh.length = 32 := hashStruct_ok_length h32 hd
          have h2 : sh.length = 32 := hashStruct_ok_length h32 hr
          simp [List.length_append, h1, h2]

/-- Counterexample for C1 as stated: on a concrete record and domain the
value returned by `signable_bytes` has 66 bytes, not 32, and differs from
the Keccak-256 digest of the prefixed concatenation. -/
theorem claim_C1_counterexample :
    (signableBytes k0 struct0 dom0).map List.length = .ok 66
    ∧ signableBytes k0 struct0 dom0 ≠
        .ok (k0 ([0x19, 0x01] ++ List.replicate 32 0 ++ List.replicate 32 0)) := by
  have hd : hashStructI k0 dom0 = .ok (List.replicate 32 0) := by
    simp [hashStructI, hashStruct, dom0, encodeData, lookupV, encodeValue, k0]
  have hr : hashStructI k0 struct0 = .ok (List.replicate 32 0) := by
    simp [hashStructI, hashStruct, struct0, encodeData, lookupV, encodeValue,
      encodeUintVal, k0]
  have hs : signableBytes k0 struct0 dom0 =
      .ok ([0x19, 0x01] ++ List.replicate 32 0 ++ List.replicate 32 0) := by
    simp [signableBytes, hd, hr]
  constructor
  · rw [hs]; rfl
  · rw [hs]
    intro hcontra
    have hAB : ([0x19, 0x01] ++ List.replicate 32 0 ++ List.replicate 32 0 : List Nat) =
        k0 ([0x19, 0x01] ++ List.replicate 32 0 ++ List.replicate 32 0) :=
      Except.ok.inj hcontra
    have := congrArg List.length hAB
    simp [k0] at this

/-- Witness for C1 at the concrete record and domain. -/
theorem claim_C1_witness :
    signableBytes k0 struct0 dom0 =
      .ok ([0x19, 0x01] ++ List.replicate 32 0 ++ List.replicate 32 0)
    ∧ ([0x19, 0x01] ++ List.replicate 32 0 ++ (List.replicate 32 0 : List Nat)).length = 66 := by
  have hd : hashStructI k0 dom0 = .ok (List.replicate 32 0) := by
    simp [hashStructI, hashStruct, dom0, encodeData, lookupV, encodeValue, k0]
  have hr : hashStructI k0 struct0 = .ok (List.replicate 32 0) := by
    simp [hashStructI, hashStruct, struct0, encodeData, lookupV, encodeValue,
      encodeUintVal, k0]
  have hs : signableBytes k0 struct0 dom0 =
      .ok ([0x19, 0x01] ++ List.replicate 32 0 ++ List.replicate 32 0) := by
    simp [signableBytes, hd, hr]
  refine ⟨hs, ?_⟩
  obtain ⟨dh, sh, _, _, _, hlen⟩ := claim_C1 k0 k0_length struct0 dom0 _ hs
  exact hlen

/-! ### C5 — make_domain -/

theorem mkValues_error_typeError :
    ∀ (ms : List (String × FType)) (kwargs : List (String × EValue)) (e : Err),
      mkValues ms kwargs = .error e → e = .typeError := by
  intro ms kwargs
  induction ms, kwargs using mkValues.induct <;> intro e <;> simp_all [mkValues]

theorem mkValues_keys :
    ∀ (ms : List (String × FType)) (kwargs : List (String × EValue)) vals,
      mkValues ms kwargs = .ok vals → vals.map (·.1) = ms.map (·.1) := by
  intro ms kwargs
  induction ms, kwargs using mkValues.induct <;> intro vals <;>
    (try simp_all [mkValues]) <;> (rintro rfl; simp_all)

theorem mkInstance_error_typeError {name : String} {ms kwargs e}
    (h : mkInstance name ms kwargs = .error e) : e = .typeError := by
  unfold mkInstance at h
  split at h
  · rename_i e2 heq
    cases h
    exact mkValues_error_typeError _ _ _ heq
  · simp at h

theorem mkInstance_ok {name : String} {ms kwargs inst}
    (h : mkInstance name ms kwargs = .ok inst) :
    inst.tyName = name ∧ inst.members = ms ∧ mkValues ms kwargs = .ok inst.values := by
  unfold mkInstance at h
  split at h
  · simp at h
  · rename_i vals heq
    cases h
    exact ⟨rfl, rfl, heq⟩

/-- C5: `make_domain` raises its `ValueError` (the specification's
`ConfigError`) exactly when all five optional fields are absent, and on
success the resulting `EIP712Domain` type contains exactly the supplied
fields in the fixed order name, version, chainId, verifyingContract,
salt. -/
theorem claim_C5 (n v : Option String) (c : Option Int) (vc s : Option EValue) :
    (makeDomain n v c vc s = .error .valueError ↔
      (n = none ∧ v = none ∧ c = none ∧ vc = none ∧ s = none))
    ∧ (∀ inst, makeDomain n v c vc s = .ok inst →
        inst.tyName = "EIP712Domain" ∧
        inst.members =
          (if n.isSome then [("name", FType.string)] else []) ++
          (if v.isSome then [("version", FType.string)] else []) ++
          (if c.isSome then [("chainId", FType.uint 256)] else []) ++
          (if vc.isSome then [("verifyingContract", FType.address)] else []) ++
          (if s.isSome then [("salt", FType.bytes 32)] else [])) := by
  constructor
  · constructor
    · intro h
      by_contra hall
      have hcond : ¬(n.isNone ∧ v.isNone ∧ c.isNone ∧ vc.isNone ∧ s.isNone) := by
        simpa [Option.isNone_iff_eq_none] using hall
      unfold makeDomain at h
      rw [if_neg hcond] at h
      exact absurd (mkInstance_error_typeError h) (by simp)
    · rintro ⟨rfl, rfl, rfl, rfl, rfl⟩
      simp [makeDomain]
  · intro inst h
    have hcond : ¬(n.isNone ∧ v.isNone ∧ c.isNone ∧ vc.isNone ∧ s.isNone) := by
      intro hall
      unfold makeDomain at h
      rw [if_pos hall] at h
      simp at h
    unfold makeDomain at h
    rw [if_neg hcond] at h
    have := mkInstance_ok h
    exact ⟨this.1, this.2.1⟩

/-- Witness for C5: every field absent raises; `make_domain(name="X")`
yields a domain type with exactly the field `name: string`. -/
theorem claim_C5_witness :
    makeDomain none none none none none = .error .valueError
    ∧ makeDomain (some "X") none none none none =
        .ok ⟨"EIP712Domain", [("name", FType.string)], [("name", EValue.vstr "X")]⟩
    ∧ (⟨"EIP712Domain", [("name", FType.string)], [("name", EValue.vstr "X")]⟩ : SInstance).members
        = [("name", FType.string)] := by
  have h1 := (claim_C5 none none none none none).1.mpr ⟨rfl, rfl, rfl, rfl, rfl⟩
  have hmv : mkValues [("name", FType.string)] [("name", EValue.vstr "X")] =
      .ok [("name", EValue.vstr "X")] := by
    simp [mkValues.eq_def, lookupV]
  have hok : makeDomain (some "X") none none none none =
      .ok ⟨"EIP712Domain", [("name", FType.string)], [("name", EValue.vstr "X")]⟩ := by
    simp [makeDomain, mkInstance, hmv]
  have h2 := (claim_C5 (some "X") none none none none).2 _ hok
  exact ⟨h1, hok, by simpa using h2.2⟩

/-! ### C8 — unknown fields and field defaulting -/

theorem lookupV_isSome_of_keys :
    ∀ (vals : List (String × EValue)) (key : String),
      key ∈ vals.map (·.1) → ∃ v, lookupV vals key = some v := by
  intro vals
  induction vals with
  | nil => intro key h; simp at h
  | cons p rest ih =>
      intro key h
      obtain ⟨n, w⟩ := p
      by_cases heq : n = key
      · exact ⟨w, by simp [lookupV, heq]⟩
      · have : key ∈ rest.map (·.1) := by
          simp at h
          rcases h with h | h
          · exact absurd h.symm heq
          · simpa using h
        obtain ⟨v, hv⟩ := ih key this
        exact ⟨v, by simp [lookupV, heq, hv]⟩

theorem mkValues_cons_ok {n : String} {t : FType} {kwargs : List (String × EValue)}
    {rest : List (String × FType)} {vals : List (String × EValue)}
    (h : mkValues ((n, t) :: rest) kwargs = .ok vals) :
    ∃ v0 tail, vals = (n, v0) :: tail ∧ mkValues rest kwargs = .ok tail ∧
      (lookupV kwargs n = none → v0 = .vnone) := by
  rw [mkValues.eq_def] at h
  simp only at h
  split at h
  · rename_i vals2 nm2 ms2 heq
    split at h
    · simp at h
    · rename_i sub hsub
      split at h
      · simp at h
      · rename_i tail htail
        cases h
        exact ⟨_, tail, rfl, htail, by simp [heq]⟩
  · simp at h
  · split at h
    · simp at h
    · rename_i tail htail
      cases h
      refine ⟨_, tail, rfl, htail, ?_⟩
      intro hn
      simp_all
  · rename_i heq
    split at h
    · simp at h
    · rename_i tail htail
      cases h
      exact ⟨_, tail, rfl, htail, fun _ => rfl⟩

theorem mkValues_default :
    ∀ (ms : List (String × FType)) (kwargs vals : List (String × EValue)),
      mkValues ms kwargs = .ok vals → ∀ key, lookupV kwargs key = none →
      key ∈ memberNames ms → lookupV vals key = some .vnone := by
  intro ms
  induction ms with
  | nil => intro kwargs vals h key hnone hkey; simp [memberNames] at hkey
  | cons p rest ih =>
      intro kwargs vals h key hnone hkey
      obtain ⟨n, t⟩ := p
      obtain ⟨v0, tail, rfl, htail, hdef⟩ := mkValues_cons_ok h
      by_cases hkn : n = key
      · subst hkn
        simp [lookupV, hdef hnone]
      · have hkey2 : key ∈ memberNames rest := by
          simp [memberNames] at hkey ⊢
          rcases hkey with hkey | hkey
          · exact absurd hkey.symm hkn
          · exact hkey
        simp only [lookupV, if_neg hkn]
        exact ih kwargs tail htail key hnone hkey2

theorem encodeValue_noneVal (k : List Nat → List Nat) (t : FType) :
    encodeValue k t .vnone = encodeValue k t (noneVal t) := by
  cases t <;> simp [encodeValue, noneVal, encodeList, utf8]

/-- C8: reading or assigning a field name the record type does not
declare raises `KeyError` (the specification's `UnknownFieldError`),
while on a constructed instance every declared field holds a value — the
stored `None` standing for the member type's `none_val`, to which
encoding defers. -/
theorem claim_C8 (k : List Nat → List Nat) (name : String)
    (mems : List (String × FType)) (kwargs : List (String × EValue))
    (inst : SInstance) (hmk : mkInstance name mems kwargs = .ok inst) (key : String) :
    (key ∉ memberNames mems →
      getItem inst key = .error .keyError ∧ ∀ v, setItem k inst key v = .error .keyError)
    ∧ (key ∈ memberNames mems →
        ∃ v, lookupV inst.values key = some v ∧ (lookupV kwargs key = none → v = .vnone))
    ∧ ∀ t, encodeValue k t .vnone = encodeValue k t (noneVal t) := by
  obtain ⟨hty, hmem, hvals⟩ := mkInstance_ok hmk
  refine ⟨?_, ?_, fun t => encodeValue_noneVal k t⟩
  · intro hnot
    constructor
    · simp [getItem, hmem, hnot]
    · intro v
      simp [setItem, hmem, hnot]
  · intro hin
    have hkeys : inst.values.map (·.1) = mems.map (·.1) := mkValues_keys _ _ _ hvals
    have hin2 : key ∈ inst.values.map (·.1) := by
      rw [hkeys]; exact hin
    obtain ⟨v, hv⟩ := lookupV_isSome_of_keys inst.values key hin2
    refine ⟨v, hv, fun hnone => ?_⟩
    have := mkValues_default mems kwargs inst.values hvals key hnone hin
    rw [hv] at this
    exact (Option.some.inj this)

/-- Witness for C8 on a concrete two-field instance with one defaulted
field. -/
theorem claim_C8_witness :
    (getItem ⟨"Mail", [("x", FType.uint 256), ("s", FType.string)],
        [("x", EValue.vint 1), ("s", EValue.vnone)]⟩ "bogus" = .error .keyError)
    ∧ (setItem k0 ⟨"Mail", [("x", FType.uint 256), ("s", FType.string)],
        [("x", EValue.vint 1), ("s", EValue.vnone)]⟩ "bogus" (.vint 2) = .error .keyError)
    ∧ lookupV [("x", EValue.vint 1), ("s", EValue.vnone)] "s" = some .vnone := by
  have hmk : mkInstance "Mail" [("x", FType.uint 256), ("s", FType.string)]
      [("x", EValue.vint 1)] =
      .ok ⟨"Mail", [("x", FType.uint 256), ("s", FType.string)],
        [("x", EValue.vint 1), ("s", EValue.vnone)]⟩ := by
    have hmv : mkValues [("x", FType.uint 256), ("s", FType.string)] [("x", EValue.vint 1)] =
        .ok [("x", EValue.vint 1), ("s", EValue.vnone)] := by
      simp [mkValues.eq_def, lookupV]
    simp [mkInstance, hmv]
  have h := claim_C8 k0 "Mail" [("x", FType.uint 256), ("s", FType.string)]
    [("x", EValue.vint 1)] _ hmk "bogus"
  have hnot : "bogus" ∉ memberNames [("x", FType.uint 256), ("s", FType.string)] := by
    simp [memberNames]
  have h2 := claim_C8 k0 "Mail" [("x", FType.uint 256), ("s", FType.string)]
    [("x", EValue.vint 1)] _ hmk "s"
  have hin : "s" ∈ memberNames [("x", FType.uint 256), ("s", FType.string)] := by
    simp [memberNames]
  obtain ⟨v, hv, hdef⟩ := h2.2.1 hin
  have hvn : v = .vnone := hdef (by simp [lookupV])
  refine ⟨(h.1 hnot).1, (h.1 hnot).2 _, ?_⟩
  have hv2 := hv
  rw [hvn] at hv2
  simpa using hv2

/-! ### C6 — encode_value structure and 32·fieldCount length -/

theorem encodeUintVal_ok_length {l : Nat} {i : Int} {bs : List Nat}
    (h : encodeUintVal l i = .ok bs) : bs.length = 32 := by
  unfold encodeUintVal at h
  by_cases hc : i < 0 ∨ (2 : Int) ^ (8 * (l / 8)) ≤ i
  · rw [if_pos hc] at h
    exact absurd h (fun hcontra => Except.noConfusion hcontra)
  · rw [if_neg hc] at h
    rw [(Except.ok.inj h).symm]
    exact beBytes_length 32 _

theorem encodeIntVal_ok_length {l : Nat} {i : Int} {bs : List Nat}
    (h : encodeIntVal l i = .ok bs) : bs.length = 32 := by
  unfold encodeIntVal at h
  by_cases hc : i < -((2 : Int) ^ (8 * (l / 8) - 1)) ∨ (2 : Int) ^ (8 * (l / 8) - 1) ≤ i
  · rw [if_pos hc] at h
    exact absurd h (fun hcontra => Except.noConfusion hcontra)
  · rw [if_neg hc] at h
    rw [(Except.ok.inj h).symm]
    exact beBytes_length 32 _

theorem bytesFinish_ok_length {k : List Nat → List Nat}
    (h32 : ∀ bs, (k bs).length = 32) {len : Nat} {bs out : List Nat}
    (hlen : len ≤ 32) (h : bytesFinish k len bs = .ok out) : out.length = 32 := by
  unfold bytesFinish at h
  split at h
  · cases h; exact h32 _
  · split at h
    · simp at h
    · rename_i h1 h2
      cases h
      simp only [List.length_append, List.length_replicate]
      omega

theorem encodeValue_length {k : List Nat → List Nat}
    (h32 : ∀ bs, (k bs).length = 32) :
    ∀ (t : FType) (v : EValue) (bs : List Nat), wfTypeB t = true →
      (∀ n2 ms2, t ≠ .struct n2 ms2) → encodeValue k t v = .ok bs → bs.length = 32 := by
  intro t v bs hwf hns h
  cases t with
  | struct n2 ms2 => exact absurd rfl (hns n2 ms2)
  | address =>
      cases v with
      | vstr s =>
          simp only [encodeValue] at h
          split at h
          · simp at h
          · exact encodeUintVal_ok_length h
      | varray vs => simp [encodeValue] at h
      | vstruct f => simp [encodeValue] at h
      | vnone => exact encodeUintVal_ok_length (by simpa [encodeValue] using h)
      | vint i => exact encodeUintVal_ok_length (by simpa [encodeValue] using h)
      | vbool b => exact encodeUintVal_ok_length (by simpa [encodeValue] using h)
      | vbytes b2 => exact encodeUintVal_ok_length (by simpa [encodeValue] using h)
  | boolean =>
      cases v with
      | vbool b =>
          cases b
          · exact encodeUintVal_ok_length (by simpa [encodeValue] using h)
          · exact encodeUintVal_ok_length (by simpa [encodeValue] using h)
      | vnone => exact encodeUintVal_ok_length (by simpa [encodeValue] using h)
      | vint i => simp [encodeValue] at h
      | vbytes b2 => simp [encodeValue] at h
      | vstr s => simp [encodeValue] at h
      | varray vs => simp [encodeValue] at h
      | vstruct f => simp [encodeValue] at h
  | bytes len =>
      have hlen : len ≤ 32 := by simpa [wfTypeB] using hwf
      cases v with
      | vnone => exact bytesFinish_ok_length h32 hlen (by simpa [encodeValue] using h)
      | vbytes b2 => exact bytesFinish_ok_length h32 hlen (by simpa [encodeValue] using h)
      | vstr s =>
          simp only [encodeValue] at h
          split at h
          · simp at h
          · exact bytesFinish_ok_length h32 hlen h
      | vint i => simp [encodeValue] at h
      | vbool b => simp [encodeValue] at h
      | varray vs => simp [encodeValue] at h
      | vstruct f => simp [encodeValue] at h
  | int l =>
      cases v with
      | vnone => exact encodeIntVal_ok_length (by simpa [encodeValue] using h)
      | vint i => exact encodeIntVal_ok_length (by simpa [encodeValue] using h)
      | vbool b => exact encodeIntVal_ok_length (by simpa [encodeValue] using h)
      | vbytes b2 => simp [encodeValue] at h
      | vstr s => simp [encodeValue] at h
      | varray vs => simp [encodeValue] at h
      | vstruct f => simp [encodeValue] at h
  | uint l =>
      cases v with
      | vnone => exact encodeUintVal_ok_length (by simpa [encodeValue] using h)
      | vint i => exact encodeUintVal_ok_length (by simpa [encodeValue] using h)
      | vbool b => exact encodeUintVal_ok_length (by simpa [encodeValue] using h)
      | vbytes b2 => simp [encodeValue] at h
      | vstr s => simp [encodeValue] at h
      | varray vs => simp [encodeValue] at h
      | vstruct f => simp [encodeValue] at h
  | string =>
      cases v with
      | vnone => simp only [encodeValue] at h; cases h; exact h32 _
      | vstr s => simp only [encodeValue] at h; cases h; exact h32 _
      | vint i => simp [encodeValue] at h
      | vbool b => simp [encodeValue] at h
      | vbytes b2 => simp [encodeValue] at h
      | varray vs => simp [encodeValue] at h
      | vstruct f => simp [encodeValue] at h
  | array m fl =>
      cases v with
      | vnone => simp only [encodeValue] at h; cases h; exact h32 _
      | varray vs =>
          simp only [encodeValue] at h
          split at h
          · simp at h
          · cases h; exact h32 _
      | vint i => simp [encodeValue] at h
      | vbool b => simp [encodeValue] at h
      | vbytes b2 => simp [encodeValue] at h
      | vstr s => simp [encodeValue] at h
      | vstruct f => simp [encodeValue] at h

theorem encodeData_cons_nonstruct (k : List Nat → List Nat)
    (vals : List (String × EValue)) (n : String) (t : FType)
    (rest : List (String × FType)) (hns : ∀ n2 ms2, t ≠ FType.struct n2 ms2) :
    encodeData k ((n, t) :: rest) vals =
      match lookupV vals n with
      | none => .error .keyError
      | some v =>
          match encodeValue k t v with
          | .error e => .error e
          | .ok enc =>
              match encodeData k rest vals with
              | .error e => .error e
              | .ok tail => .ok (enc ++ tail) := by
  cases t <;> first
    | exact absurd rfl (hns _ _)
    | simp only [encodeData]

theorem encodeData_cons_struct (k : List Nat → List Nat)
    (vals : List (String × EValue)) (n n2 : String)
    (ms2 rest : List (String × FType)) :
    encodeData k ((n, FType.struct n2 ms2) :: rest) vals =
      match lookupV vals n with
      | some (.vstruct sub) =>
          match hashStruct k n2 ms2 sub with
          | .error e => .error e
          | .ok w =>
              match encodeData k rest vals with
              | .error e => .error e
              | .ok tail => .ok (w ++ tail)
      | _ => .error .attributeError := by
  cases hl : lookupV vals n with
  | none => simp [encodeData, hl]
  | some v =>
      cases v with
      | vstruct sub =>
          cases he : encodeData k ms2 sub with
          | error e => simp [encodeData, hashStruct, hl, he]
          | ok enc => simp [encodeData, hashStruct, hl, he]
      | vint i => simp [encodeData, hl]
      | vbool b => simp [encodeData, hl]
      | vbytes b2 => simp [encodeData, hl]
      | vstr s => simp [encodeData, hl]
      | varray vs => simp [encodeData, hl]
      | vnone => simp [encodeData, hl]

theorem specFieldWord_nonstruct (k : List Nat → List Nat)
    (vals : List (String × EValue)) (n : String) (t : FType)
    (hns : ∀ n2 ms2, t ≠ FType.struct n2 ms2) :
    specFieldWord k vals (n, t) =
      match lookupV vals n with
      | none => .error .keyError
      | some v => encodeValue k t v := by
  cases t <;> first
    | exact absurd rfl (hns _ _)
    | simp only [specFieldWord]

theorem encodeData_mapM_cons_nonstruct (k : List Nat → List Nat)
    (vals : List (String × EValue)) (n : String) (t : FType)
    (rest : List (String × FType)) (hns : ∀ n2 ms2, t ≠ FType.struct n2 ms2)
    (ih : encodeData k rest vals = (specFieldWords k vals rest).map List.flatten) :
    encodeData k ((n, t) :: rest) vals =
      (specFieldWords k vals ((n, t) :: rest)).map List.flatten := by
  rw [encodeData_cons_nonstruct k vals n t rest hns]
  simp only [specFieldWords, specFieldWord_nonstruct k vals n t hns]
  cases hl : lookupV vals n with
  | none => simp [Except.map]
  | some v =>
      cases he : encodeValue k t v with
      | error e => simp [he, Except.map]
      | ok enc =>
          rw [ih]
          cases hr : specFieldWords k vals rest with
          | error e => simp [he, hr, Except.map]
          | ok ws => simp [he, hr, Except.map]

/-- C6: `encode_value` of a struct is, per field in declaration order,
the `hash_struct` of the nested instance for struct members and the
member encoding otherwise, concatenated; on success the result is
exactly `32 * fieldCount` bytes. -/
theorem claim_C6 (k : List Nat → List Nat) (h32 : ∀ bs, (k bs).length = 32)
    (ms : List (String × FType)) (vals : List (String × EValue)) :
    encodeData k ms vals = (specFieldWords k vals ms).map List.flatten
    ∧ (∀ bs, wfMembersB ms = true → encodeData k ms vals = .ok bs →
        bs.length = 32 * ms.length) := by
  induction ms with
  | nil =>
      constructor
      · simp [encodeData, specFieldWords, Except.map]
      · intro bs hwf h
        simp [encodeData] at h
        simp [← h]
  | cons p rest ih =>
      obtain ⟨n, t⟩ := p
      have hmapM : encodeData k ((n, t) :: rest) vals =
          (specFieldWords k vals ((n, t) :: rest)).map List.flatten := by
        cases t with
        | struct n2 ms2 =>
            rw [encodeData_cons_struct]
            simp only [specFieldWords, specFieldWord]
            cases hl : lookupV vals n with
            | none => simp [hl, Except.map]
            | some v =>
                cases v with
                | vstruct sub =>
                    cases hh : hashStruct k n2 ms2 sub with
                    | error e => simp [hl, hh, Except.map]
                    | ok w =>
                        simp only [hl, hh]
                        rw [ih.1]
                        cases hr : specFieldWords k vals rest with
                        | error e => simp [hr, Except.map]
                        | ok ws => simp [hr, Except.map]
                | vint i => simp [hl, Except.map]
                | vbool b => simp [hl, Except.map]
                | vbytes b2 => simp [hl, Except.map]
                | vstr s => simp [hl, Except.map]
                | varray vs => simp [hl, Except.map]
                | vnone => simp [hl, Except.map]
        | address =>
            exact encodeData_mapM_cons_nonstruct k vals n .address rest
              (fun _ _ h => FType.noConfusion h) ih.1
        | boolean =>
            exact encodeData_mapM_cons_nonstruct k vals n .boolean rest
              (fun _ _ h => FType.noConfusion h) ih.1
        | bytes len =>
            exact encodeData_mapM_cons_nonstruct k vals n (.bytes len) rest
              (fun _ _ h => FType.noConfusion h) ih.1
        | int l =>
            exact encodeData_mapM_cons_nonstruct k vals n (.int l) rest
              (fun _ _ h => FType.noConfusion h) ih.1
        | uint l =>
            exact encodeData_mapM_cons_nonstruct k vals n (.uint l) rest
              (fun _ _ h => FType.noConfusion h) ih.1
        | string =>
            exact encodeData_mapM_cons_nonstruct k vals n .string rest
              (fun _ _ h => FType.noConfusion h) ih.1
        | array m fl =>
            exact encodeData_mapM_cons_nonstruct k vals n (.array m fl) rest
              (fun _ _ h => FType.noConfusion h) ih.1
      refine ⟨hmapM, ?_⟩
      intro bs hwf h
      have hwt : wfTypeB t = true ∧ wfMembersB rest = true := by
        simpa [wfMembersB, Bool.and_eq_true] using hwf
      cases t with
      | struct n2 ms2 =>
          rw [encodeData_cons_struct] at h
          split at h
          · rename_i sub
            split at h
            · simp at h
            · rename_i w hw
              split at h
              · simp at h
              · rename_i tail htail
                have hbs : bs = w ++ tail := (Except.ok.inj h).symm
                rw [hbs]
                have h1 : w.length = 32 := hashStruct_ok_length h32 hw
                have h2 : tail.length = 32 * rest.length := ih.2 tail hwt.2 htail
                simp [List.length_append, h1, h2, List.length_cons]
                ring
          · simp at h
      | address =>
          rw [encodeData_cons_nonstruct k vals n _ rest (fun _ _ hh => FType.noConfusion hh)] at h
          split at h
          · simp at h
          · rename_i v hv
            split at h
            · simp at h
            · rename_i enc henc
              split at h
              · simp at h
              · rename_i tail htail
                have hbs : bs = enc ++ tail := (Except.ok.inj h).symm
                rw [hbs]
                have h1 : enc.length = 32 :=
                  encodeValue_length h32 _ v enc hwt.1 (fun _ _ hh => FType.noConfusion hh) henc
                have h2 : tail.length = 32 * rest.length := ih.2 tail hwt.2 htail
                simp [List.length_append, h1, h2, List.length_cons]
                ring
      | boolean =>
          rw [encodeData_cons_nonstruct k vals n _ rest (fun _ _ hh => FType.noConfusion hh)] at h
          split at h
          · simp at h
          · rename_i v hv
            split at h
            · simp at h
            · rename_i enc henc
              split at h
              · simp at h
              · rename_i tail htail
                have hbs : bs = enc ++ tail := (Except.ok.inj h).symm
                rw [hbs]
                have h1 : enc.length = 32 :=
                  encodeValue_length h32 _ v enc hwt.1 (fun _ _ hh => FType.noConfusion hh) henc
                have h2 : tail.length = 32 * rest.length := ih.2 tail hwt.2 htail
                simp [List.length_append, h1, h2, List.length_cons]
                ring
      | bytes len =>
          rw [encodeData_cons_nonstruct k vals n _ rest (fun _ _ hh => FType.noConfusion hh)] at h
          split at h
          · simp at h
          · rename_i v hv
            split at h
            · simp at h
            · rename_i enc henc
              split at h
              · simp at h
              · rename_i tail htail
                have hbs : bs = enc ++ tail := (Except.ok.inj h).symm
                rw [hbs]
                have h1 : enc.length = 32 :=
                  encodeValue_length h32 _ v enc hwt.1 (fun _ _ hh => FType.noConfusion hh) henc
                have h2 : tail.length = 32 * rest.length := ih.2 tail hwt.2 htail
                simp [List.length_append, h1, h2, List.length_cons]
                ring
      | int l =>
          rw [encodeData_cons_nonstruct k vals n _ rest (fun _ _ hh => FType.noConfusion hh)] at h
          split at h
          · simp at h
          · rename_i v hv
            split at h
            · simp at h
            · rename_i enc henc
              split at h
              · simp at h
              · rename_i tail htail
                have hbs : bs = enc ++ tail := (Except.ok.inj h).symm
                rw [hbs]
                have h1 : enc.length = 32 :=
                  encodeValue_length h32 _ v enc hwt.1 (fun _ _ hh => FType.noConfusion hh) henc
                have h2 : tail.length = 32 * rest.length := ih.2 tail hwt.2 htail
                simp [List.length_append, h1, h2, List.length_cons]
                ring
      | uint l =>
          rw [encodeData_cons_nonstruct k vals n _ rest (fun _ _ hh => FType.noConfusion hh)] at h
          split at h
          · simp at h
          · rename_i v hv
            split at h
            · simp at h
            · rename_i enc henc
              split at h
              · simp at h
              · rename_i tail htail
                have hbs : bs = enc ++ tail := (Except.ok.inj h).symm
                rw [hbs]
                have h1 : enc.length = 32 :=
                  encodeValue_length h32 _ v enc hwt.1 (fun _ _ hh => FType.noConfusion hh) henc
                have h2 : tail.length = 32 * rest.length := ih.2 tail hwt.2 htail
                simp [List.length_append, h1, h2, List.length_cons]
                ring
      | string =>
          rw [encodeData_cons_nonstruct k vals n _ rest (fun _ _ hh => FType.noConfusion hh)] at h
          split at h
          · simp at h
          · rename_i v hv
            split at h
            · simp at h
            · rename_i enc henc
              split at h
              · simp at h
              · rename_i tail htail
                have hbs : bs = enc ++ tail := (Except.ok.inj h).symm
                rw [hbs]
                have h1 : enc.length = 32 :=
                  encodeValue_length h32 _ v enc hwt.1 (fun _ _ hh => FType.noConfusion hh) henc
                have h2 : tail.length = 32 * rest.length := ih.2 tail hwt.2 htail
                simp [List.length_append, h1, h2, List.length_cons]
                ring
      | array m fl =>
          rw [encodeData_cons_nonstruct k vals n _ rest (fun _ _ hh => FType.noConfusion hh)] at h
          split at h
          · simp at h
          · rename_i v hv
            split at h
            · simp at h
            · rename_i enc henc
              split at h
              · simp at h
              · rename_i tail htail
                have hbs : bs = enc ++ tail := (Except.ok.inj h).symm
                rw [hbs]
                have h1 : enc.length = 32 :=
                  encodeValue_length h32 _ v enc hwt.1 (fun _ _ hh => FType.noConfusion hh) henc
                have h2 : tail.length = 32 * rest.length := ih.2 tail hwt.2 htail
                simp [List.length_append, h1, h2, List.length_cons]
                ring

/-- Witness for C6 on a one-field record: a single 32-byte word. -/
theorem claim_C6_witness :
    encodeData k0 [("x", FType.uint 256)] [("x", EValue.vint 1)] = .ok (beBytes 32 1)
    ∧ (beBytes 32 1).length = 32 * 1 := by
  have henc : encodeData k0 [("x", FType.uint 256)] [("x", EValue.vint 1)] =
      .ok (beBytes 32 1) := by
    simp [encodeData, lookupV, encodeValue, encodeUintVal]
  refine ⟨henc, ?_⟩
  have hlen := (claim_C6 k0 k0_length [("x", FType.uint 256)] [("x", EValue.vint 1)]).2
    (beBytes 32 1) (by simp [wfMembersB, wfTypeB]) henc
  simpa using hlen

/-! ### C2 — canonical signature reference gathering -/

theorem beqF_iff : ∀ a b : FType, beqF a b = true ↔ a = b := by
  refine beqF.induct (fun a b => beqF a b = true ↔ a = b)
    (fun l1 l2 => beqFields l1 l2 = true ↔ l1 = l2)
    ?_ ?_ ?_ ?_ ?_ ?_ ?_ ?_ ?_ ?_ ?_ ?_
  · simp [beqF]
  · simp [beqF]
  · intro a b; simp [beqF]
  · intro a b; simp [beqF]
  · intro a b; simp [beqF]
  · simp [beqF]
  · intro m l m2 l2 ih; simp [beqF, ih]
  · intro n ms n2 ms2 ih; simp [beqF, ih]
  · intro t x h1 h2 h3 h4 h5 h6 h7 h8
    cases t <;> cases x <;>
      first
        | exact (h1 rfl rfl).elim
        | exact (h2 rfl rfl).elim
        | exact (h3 _ _ rfl rfl).elim
        | exact (h4 _ _ rfl rfl).elim
        | exact (h5 _ _ rfl rfl).elim
        | exact (h6 rfl rfl).elim
        | exact (h7 _ _ _ _ rfl rfl).elim
        | exact (h8 _ _ _ _ rfl rfl).elim
        | simp [beqF]
  · simp [beqFields]
  · intro n t r n2 t2 r2 ih1 ih2
    simp [beqFields, ih1, ih2]
  · intro l1 l2 h1 h2
    cases l1 with
    | nil =>
        cases l2 with
        | nil => exact (h1 rfl rfl).elim
        | cons p r => simp [beqFields]
    | cons p r =>
        cases l2 with
        | nil => obtain ⟨n, t⟩ := p; simp [beqFields]
        | cons p2 r2 =>
            obtain ⟨n, t⟩ := p
            obtain ⟨n2, t2⟩ := p2
            exact (h2 n t r n2 t2 r2 rfl rfl).elim

theorem beqFields_iff : ∀ l1 l2 : List (String × FType), beqFields l1 l2 = true ↔ l1 = l2 := by
  intro l1 l2
  have h := beqF_iff (.struct "X" l1) (.struct "X" l2)
  simpa [beqF] using h

theorem beqS_iff : ∀ a b : STy, beqS a b = true ↔ a = b := by
  intro a b
  obtain ⟨n, ms⟩ := a
  obtain ⟨n2, ms2⟩ := b
  simp [beqS, beqFields_iff]

theorem containsS_iff : ∀ (l : List STy) (s : STy), containsS l s = true ↔ s ∈ l := by
  intro l s
  simp [containsS, List.any_eq_true, beqS_iff]

theorem dedupS_mem : ∀ (l : List STy) (x : STy), x ∈ dedupS l ↔ x ∈ l := by
  intro l
  induction l using dedupS.induct with
  | case1 => intro x; simp [dedupS]
  | case2 s rest ih =>
      intro x
      rw [dedupS]
      simp only [List.mem_cons, ih, List.mem_filter, Bool.not_eq_eq_eq_not, Bool.not_true,
        List.mem_cons]
      constructor
      · rintro (rfl | ⟨hx, _⟩)
        · exact Or.inl rfl
        · exact Or.inr hx
      · rintro (rfl | hx)
        · exact Or.inl rfl
        · by_cases hxs : x = s
          · exact Or.inl hxs
          · refine Or.inr ⟨hx, ?_⟩
            rw [show (beqS x s = false) ↔ ¬(beqS x s = true) by simp]
            rw [beqS_iff]
            exact hxs

theorem dedupS_nodup : ∀ l : List STy, (dedupS l).Nodup := by
  intro l
  induction l using dedupS.induct with
  | case1 => simp [dedupS]
  | case2 s rest ih =>
      rw [dedupS]
      refine List.Nodup.cons ?_ ih
      intro hmem
      rw [dedupS_mem] at hmem
      have h2 := (List.mem_filter.mp hmem).2
      have h3 : beqS s s = true := (beqS_iff s s).mpr rfl
      rw [h3] at h2
      simp at h2

theorem gather_mono :
    ∀ (l : List (String × FType)) (acc : List STy), ∀ x ∈ acc, x ∈ gatherFields l acc := by
  refine gatherFields.induct (fun t acc => ∀ x ∈ acc, x ∈ gatherMember t acc)
    (fun l acc => ∀ x ∈ acc, x ∈ gatherFields l acc) ?_ ?_ ?_ ?_ ?_
  · intro acc n ms h x hx
    simp [gatherMember, h]
    exact hx
  · intro acc n ms h ih x hx
    rw [gatherMember, if_neg h]
    exact ih x (by simp [hx])
  · intro t acc h x hx
    cases t <;> first
      | exact (h _ _ rfl).elim
      | (simp only [gatherMember]; exact hx)
  · intro acc x hx
    rw [gatherFields]
    exact hx
  · intro acc fst t rest ih1 ih2 x hx
    rw [gatherFields]
    exact ih2 x (ih1 x hx)

theorem gatherMember_mono :
    ∀ (t : FType) (acc : List STy), ∀ x ∈ acc, x ∈ gatherMember t acc := by
  refine gatherMember.induct (fun t acc => ∀ x ∈ acc, x ∈ gatherMember t acc)
    (fun l acc => ∀ x ∈ acc, x ∈ gatherFields l acc) ?_ ?_ ?_ ?_ ?_
  · intro acc n ms h x hx
    simp [gatherMember, h]
    exact hx
  · intro acc n ms h ih x hx
    rw [gatherMember, if_neg h]
    exact ih x (by simp [hx])
  · intro t acc h x hx
    cases t <;> first
      | exact (h _ _ rfl).elim
      | (simp only [gatherMember]; exact hx)
  · intro acc x hx
    rw [gatherFields]
    exact hx
  · intro acc fst t rest ih1 ih2 x hx
    rw [gatherFields]
    exact ih2 x (ih1 x hx)

theorem gather_sound :
    ∀ (l : List (String × FType)) (acc : List STy),
      ∀ x ∈ gatherFields l acc, x ∈ acc ∨ x ∈ specRefsDirectFields l := by
  refine gatherFields.induct
    (fun t acc => ∀ x ∈ gatherMember t acc, x ∈ acc ∨ x ∈ specRefsDirect t)
    (fun l acc => ∀ x ∈ gatherFields l acc, x ∈ acc ∨ x ∈ specRefsDirectFields l)
    ?_ ?_ ?_ ?_ ?_
  · intro acc n ms h x hx
    rw [gatherMember, if_pos h] at hx
    exact Or.inl hx
  · intro acc n ms h ih x hx
    rw [gatherMember, if_neg h] at hx
    rcases ih x hx with hx2 | hx2
    · simp at hx2
      rcases hx2 with hx2 | hx2
      · exact Or.inl hx2
      · exact Or.inr (by simp [specRefsDirect, hx2])
    · exact Or.inr (by simp [specRefsDirect, hx2])
  · intro t acc h x hx
    cases t <;> first
      | exact (h _ _ rfl).elim
      | (simp only [gatherMember] at hx; exact Or.inl hx)
  · intro acc x hx
    rw [gatherFields] at hx
    exact Or.inl hx
  · intro acc fst t rest ih1 ih2 x hx
    rw [gatherFields] at hx
    rcases ih2 x hx with hx2 | hx2
    · rcases ih1 x hx2 with hx3 | hx3
      · exact Or.inl hx3
      · exact Or.inr (by simp [specRefsDirectFields, hx3])
    · exact Or.inr (by simp [specRefsDirectFields, hx2])

theorem gather_directs :
    ∀ (l : List (String × FType)) (acc : List STy),
      ∀ x ∈ directStructs l, x ∈ gatherFields l acc := by
  refine gatherFields.induct
    (fun t acc => ∀ n sm, t = FType.struct n sm → (n, sm) ∈ gatherMember t acc)
    (fun l acc => ∀ x ∈ directStructs l, x ∈ gatherFields l acc)
    ?_ ?_ ?_ ?_ ?_
  · intro acc n ms h n2 sm2 heq
    cases heq
    rw [gatherMember, if_pos h]
    exact (containsS_iff acc (n, ms)).mp h
  · intro acc n ms h ih n2 sm2 heq
    cases heq
    rw [gatherMember, if_neg h]
    exact gather_mono ms (acc ++ [(n, ms)]) (n, ms) (by simp)
  · intro t acc h n sm heq
    exact (h n sm heq).elim
  · intro acc x hx
    simp [directStructs] at hx
  · intro acc fst t rest ih1 ih2 x hx
    rw [gatherFields]
    simp only [directStructs, List.filterMap_cons] at hx
    by_cases hstruct : ∃ n sm, t = FType.struct n sm
    · obtain ⟨n, sm, rfl⟩ := hstruct
      simp at hx
      rcases hx with hx | hx
      · subst hx
        exact gather_mono rest _ _ (ih1 n sm rfl)
      · exact ih2 _ (by simpa [directStructs] using hx)
    · have hx2 : x ∈ directStructs rest := by
        cases t <;> first
          | simpa [directStructs] using hx
          | exact absurd ⟨_, _, rfl⟩ hstruct
      exact ih2 _ hx2

theorem gather_closed :
    ∀ (l : List (String × FType)) (acc : List STy),
      ∀ T ∈ gatherFields l acc, T ∈ acc ∨ ∀ x ∈ directStructs T.2, x ∈ gatherFields l acc := by
  refine gatherFields.induct
    (fun t acc => ∀ T ∈ gatherMember t acc,
      T ∈ acc ∨ ∀ x ∈ directStructs T.2, x ∈ gatherMember t acc)
    (fun l acc => ∀ T ∈ gatherFields l acc,
      T ∈ acc ∨ ∀ x ∈ directStructs T.2, x ∈ gatherFields l acc)
    ?_ ?_ ?_ ?_ ?_
  · intro acc n ms h T hT
    rw [gatherMember, if_pos h] at hT ⊢
    exact Or.inl hT
  · intro acc n ms h ih T hT
    rw [gatherMember, if_neg h] at hT ⊢
    rcases ih T hT with hT2 | hT2
    · simp at hT2
      rcases hT2 with hT2 | hT2
      · exact Or.inl hT2
      · subst hT2
        exact Or.inr (fun x hx => gather_directs ms (acc ++ [(n, ms)]) x hx)
    · exact Or.inr hT2
  · intro t acc h T hT
    cases t <;> first
      | exact (h _ _ rfl).elim
      | (simp only [gatherMember] at hT; exact Or.inl hT)
  · intro acc T hT
    rw [gatherFields] at hT
    exact Or.inl hT
  · intro acc fst t rest ih1 ih2 T hT
    rw [gatherFields] at hT ⊢
    rcases ih2 T hT with hT2 | hT2
    · rcases ih1 T hT2 with hT3 | hT3
      · exact Or.inl hT3
      · exact Or.inr (fun x hx => gather_mono rest _ x (hT3 x hx))
    · exact Or.inr hT2

theorem refs_subset_of_closed (G : List STy)
    (hcl : ∀ T ∈ G, ∀ x ∈ directStructs T.2, x ∈ G) :
    ∀ (l : List (String × FType)), (∀ x ∈ directStructs l, x ∈ G) →
      ∀ s ∈ specRefsDirectFields l, s ∈ G := by
  refine specRefsDirectFields.induct
    (fun t => ∀ n sm, t = FType.struct n sm → (n, sm) ∈ G → ∀ s ∈ specRefsDirect t, s ∈ G)
    (fun l => (∀ x ∈ directStructs l, x ∈ G) → ∀ s ∈ specRefsDirectFields l, s ∈ G)
    ?_ ?_ ?_ ?_
  · intro n ms ih n2 sm2 heq hmem s hs
    cases heq
    rw [specRefsDirect] at hs
    rcases List.mem_cons.mp hs with hs | hs
    · subst hs; exact hmem
    · exact ih (hcl _ hmem) s hs
  · intro t h n sm heq
    exact absurd heq (by intro he; exact (h n sm he).elim)
  · intro _ s hs
    simp [specRefsDirectFields] at hs
  · intro n t rest ih1 ih2 hmem s hs
    rw [specRefsDirectFields] at hs
    rcases List.mem_append.mp hs with hs | hs
    · cases t with
      | struct n2 sm =>
          exact ih1 n2 sm rfl (hmem (n2, sm) (by simp [directStructs])) s hs
      | address => simp [specRefsDirect] at hs
      | boolean => simp [specRefsDirect] at hs
      | bytes len => simp [specRefsDirect] at hs
      | int l => simp [specRefsDirect] at hs
      | uint l => simp [specRefsDirect] at hs
      | string => simp [specRefsDirect] at hs
      | array m fl => simp [specRefsDirect] at hs
    · refine ih2 ?_ s hs
      intro x hx
      refine hmem x ?_
      have hsplit : directStructs ((n, t) :: rest) =
          (match t with | FType.struct n2 sm => [(n2, sm)] | _ => []) ++ directStructs rest := by
        cases t <;> simp [directStructs]
      rw [hsplit]
      exact List.mem_append_right _ hx

theorem gather_nodup :
    ∀ (l : List (String × FType)) (acc : List STy), acc.Nodup → (gatherFields l acc).Nodup := by
  refine gatherFields.induct (fun t acc => acc.Nodup → (gatherMember t acc).Nodup)
    (fun l acc => acc.Nodup → (gatherFields l acc).Nodup) ?_ ?_ ?_ ?_ ?_
  · intro acc n ms h hnd
    rw [gatherMember, if_pos h]
    exact hnd
  · intro acc n ms h ih hnd
    rw [gatherMember, if_neg h]
    apply ih
    have hnotin : (n, ms) ∉ acc := by
      intro hc
      exact h ((containsS_iff acc (n, ms)).mpr hc)
    simp [List.nodup_append, hnd, hnotin]
  · intro t acc h hnd
    cases t <;> first
      | exact (h _ _ rfl).elim
      | (simp only [gatherMember]; exact hnd)
  · intro acc hnd
    rw [gatherFields]
    exact hnd
  · intro acc fst t rest ih1 ih2 hnd
    rw [gatherFields]
    exact ih2 (ih1 hnd)

theorem sorted_nodup_eq :
    ∀ (l1 l2 : List STy), l1.Perm l2 →
      l1.Pairwise (fun a b => a.1 ≤ b.1) → l2.Pairwise (fun a b => a.1 ≤ b.1) →
      (l1.map (·.1)).Nodup → l1 = l2 := by
  intro l1
  induction l1 with
  | nil =>
      intro l2 hp _ _ _
      exact hp.nil_eq
  | cons a r1 ih =>
      intro l2 hp hs1 hs2 hnd
      cases l2 with
      | nil => exact absurd hp.eq_nil (by simp)
      | cons b r2 =>
          have hab : a = b := by
            by_contra hne
            have ha2 : a ∈ b :: r2 := hp.mem_iff.mp (by simp)
            have hb1 : b ∈ a :: r1 := hp.symm.mem_iff.mp (by simp)
            have ha2b : a ∈ r2 := by
              rcases List.mem_cons.mp ha2 with h | h
              · exact absurd h hne
              · exact h
            have hb1a : b ∈ r1 := by
              rcases List.mem_cons.mp hb1 with h | h
              · exact absurd h.symm hne
              · exact h
            have h1 : a.1 ≤ b.1 := (List.pairwise_cons.mp hs1).1 b hb1a
            have h2 : b.1 ≤ a.1 := (List.pairwise_cons.mp hs2).1 a ha2b
            have hname : a.1 = b.1 := le_antisymm h1 h2
            have hmem : a.1 ∈ r1.map (·.1) := by
              rw [hname]
              exact List.mem_map_of_mem _ hb1a
            have hnd2 : a.1 ∉ r1.map (·.1) := by
              rw [List.map_cons] at hnd
              exact (List.nodup_cons.mp hnd).1
            exact hnd2 hmem
          subst hab
          have htail := ih r2 hp.cons_inv (List.pairwise_cons.mp hs1).2
            (List.pairwise_cons.mp hs2).2
            (by
              rw [List.map_cons] at hnd
              exact (List.nodup_cons.mp hnd).2)
          rw [htail]

theorem sortByName_eq_of_perm (l1 l2 : List STy) (hperm : l1.Perm l2)
    (hnd : (l1.map (·.1)).Nodup) : sortByName l1 = sortByName l2 := by
  have htrans : ∀ a b c : STy, (a.1 ≤ b.1 : Bool) = true → (b.1 ≤ c.1 : Bool) = true →
      (a.1 ≤ c.1 : Bool) = true := by
    intro a b c h1 h2
    simp only [decide_eq_true_eq] at h1 h2 ⊢
    exact le_trans h1 h2
  have htotal : ∀ a b : STy, ((a.1 ≤ b.1 : Bool) || (b.1 ≤ a.1 : Bool)) = true := by
    intro a b
    simp only [Bool.or_eq_true, decide_eq_true_eq]
    exact le_total a.1 b.1
  have hp1 : (sortByName l1).Perm l1 := List.mergeSort_perm l1 _
  have hp2 : (sortByName l2).Perm l2 := List.mergeSort_perm l2 _
  have hs1 := List.sorted_mergeSort htrans htotal l1
  have hs2 := List.sorted_mergeSort htrans htotal l2
  refine sorted_nodup_eq (sortByName l1) (sortByName l2)
    (hp1.trans (hperm.trans hp2.symm)) ?_ ?_ ?_
  · exact hs1.imp (fun h => by simpa using h)
  · exact hs2.imp (fun h => by simpa using h)
  · have : ((sortByName l1).map (·.1)).Perm (l1.map (·.1)) := hp1.map _
    exact this.nodup_iff.mpr hnd

/-- C2 (amended): the canonical signature with references resolved is the
type's own signature followed by the own signatures of the distinct
struct types transitively referenced **through struct-typed members
only** — structs referenced solely through an `Array` member type are not
gathered — excluding the type itself, sorted by type name. Stated for
type families whose struct names are distinct (Python sorts set
iteration order by name, so equal names would leave the order of the tied
signatures unspecified). -/
theorem claim_C2 (name : String) (ms : List (String × FType))
    (hnd : (((name, ms) :: dedupS (specRefsDirectFields ms)).map (·.1)).Nodup) :
    encodeType name ms = specSigDirect name ms := by
  have hndTail : ((dedupS (specRefsDirectFields ms)).map (·.1)).Nodup := by
    rw [List.map_cons] at hnd
    exact (List.nodup_cons.mp hnd).2
  have hGmem : ∀ x, x ∈ gatherFields ms [] ↔ x ∈ specRefsDirectFields ms := by
    intro x
    constructor
    · intro hx
      rcases gather_sound ms [] x hx with h | h
      · simp at h
      · exact h
    · intro hx
      refine refs_subset_of_closed (gatherFields ms []) ?_ ms ?_ x hx
      · intro T hT y hy
        rcases gather_closed ms [] T hT with h | h
        · simp at h
        · exact h y hy
      · intro y hy
        exact gather_directs ms [] y hy
  have hnd1 : ((gatherFields ms []).filter (fun s => !beqS s (name, ms))).Nodup :=
    (gather_nodup ms [] (by simp)).filter _
  have hnd2 : ((dedupS (specRefsDirectFields ms)).filter (fun s => !beqS s (name, ms))).Nodup :=
    (dedupS_nodup _).filter _
  have hmemf : ∀ x, x ∈ (gatherFields ms []).filter (fun s => !beqS s (name, ms)) ↔
      x ∈ (dedupS (specRefsDirectFields ms)).filter (fun s => !beqS s (name, ms)) := by
    intro x
    simp only [List.mem_filter]
    rw [hGmem x, ← dedupS_mem]
  have hperm := (List.perm_ext_iff_of_nodup hnd1 hnd2).mpr hmemf
  have hndnames :
      (((gatherFields ms []).filter (fun s => !beqS s (name, ms))).map (·.1)).Nodup := by
    refine List.Nodup.map_on ?_ hnd1
    intro x hx y hy hxy
    have hx2 : x ∈ dedupS (specRefsDirectFields ms) :=
      (List.mem_filter.mp ((hmemf x).mp hx)).1
    have hy2 : y ∈ dedupS (specRefsDirectFields ms) :=
      (List.mem_filter.mp ((hmemf y).mp hy)).1
    exact List.inj_on_of_nodup_map hndTail hx2 hy2 hxy
  have hsort := sortByName_eq_of_perm _ _ hperm hndnames
  simp only [encodeType, encType, specSigDirect, if_true]
  rw [hsort]

/-- Counterexample for C2 as stated: a record type `B` whose only member
is the array type `A[]` of a struct `A`. The claim's gathering rule
(arrays included) appends `A`'s signature; the code's `encode_type` does
not, because `_gather_reference_structs` skips `Array` members. -/
theorem claim_C2_counterexample :
    encodeType "B" [("a", FType.array (FType.struct "A" [("x", FType.uint 256)]) 0)] =
      "B(A[] a)"
    ∧ specSigClaim "B" [("a", FType.array (FType.struct "A" [("x", FType.uint 256)]) 0)] =
        "B(A[] a)A(uint256 x)"
    ∧ ("B(A[] a)" : String) ≠ "B(A[] a)A(uint256 x)" := by
  refine ⟨?_, ?_, by decide⟩
  · have hsort : sortByName ([] : List STy) = [] := List.mergeSort_of_sorted (by simp)
    simp [encodeType, encType, gatherFields, gatherMember, ownSig, typeNameF, hsort,
      natStr, natChars, natCharsAux, digitChar]
    decide
  · have hrefs : specRefsFields [("a", FType.array (FType.struct "A" [("x", FType.uint 256)]) 0)]
        = [("A", [("x", FType.uint 256)])] := by
      simp [specRefsFields, specRefs]
    have hsingle : sortByName [(("A" : String), [("x", FType.uint 256)])] =
        [(("A" : String), [("x", FType.uint 256)])] :=
      List.mergeSort_of_sorted (by simp)
    simp [specSigClaim, hrefs, dedupS, beqS, beqFields, beqF, hsingle, ownSig, typeNameF,
      natStr, natChars, natCharsAux, digitChar]
    decide

/-- Witness for the amended C2 on a record with one directly nested
struct member. -/
theorem claim_C2_witness :
    encodeType "Outer" [("m", FType.struct "Inner" [("y", FType.uint 8)])] =
      specSigDirect "Outer" [("m", FType.struct "Inner" [("y", FType.uint 8)])] := by
  refine claim_C2 "Outer" [("m", FType.struct "Inner" [("y", FType.uint 8)])] ?_
  have hrefs : specRefsDirectFields [("m", FType.struct "Inner" [("y", FType.uint 8)])]
      = [("Inner", [("y", FType.uint 8)])] := by
    simp [specRefsDirectFields, specRefsDirect]
  rw [hrefs]
  simp [dedupS]

theorem lookupA_mem {α : Type} : ∀ (l : List (String × α)) (key : String) (v : α),
    lookupA l key = some v → (key, v) ∈ l := by
  intro l key v
  induction l with
  | nil => intro h; simp [lookupA] at h
  | cons p rest ih =>
      obtain ⟨n, w⟩ := p
      intro h
      simp only [lookupA] at h
      split at h
      · rename_i heq
        cases h
        subst heq
        exact List.mem_cons_self _ _
      · exact List.mem_cons_of_mem _ (ih h)

theorem parseBackB_bytesRange : ((List.range 33).all (fun n => parseBackB (.bytes n))) = true := by
  decide

set_option maxRecDepth 10000 in
theorem parseBackB_uintRange : ((List.range 257).all
    (fun l => !(decide (8 ≤ l) && decide (l % 8 = 0)) || parseBackB (.uint l))) = true := by
  decide

set_option maxRecDepth 10000 in
theorem parseBackB_intRange : ((List.range 257).all
    (fun l => !(decide (8 ≤ l) && decide (l % 8 = 0)) || parseBackB (.int l))) = true := by
  decide

theorem parseBackB_sound (t : FType) (h : parseBackB t = true) :
    parseSolType (typeNameF t) = .ok (some t) := by
  unfold parseBackB at h
  cases hp : parseSolType (typeNameF t) with
  | error e => rw [hp] at h; simp at h
  | ok r =>
      rw [hp] at h
      cases r with
      | none => simp at h
      | some t2 =>
          simp only [] at h
          rw [(beqF_iff t2 t).mp h]

theorem scalar_parseBack (t : FType) (hp : isPrimB t = true) (hw : wfTypeB t = true) :
    parseBackB t = true := by
  cases t with
  | address => decide
  | boolean => decide
  | string => decide
  | bytes n =>
      have hn : n ≤ 32 := by simpa [wfTypeB] using hw
      have := (List.all_eq_true.mp parseBackB_bytesRange) n
        (by simp only [List.mem_range]; omega)
      simpa using this
  | int l =>
      simp only [wfTypeB, Bool.and_eq_true, decide_eq_true_eq] at hw
      have := (List.all_eq_true.mp parseBackB_intRange) l
        (by simp only [List.mem_range]; omega)
      simpa [hw.1.1, hw.1.2, hw.2] using this
  | uint l =>
      simp only [wfTypeB, Bool.and_eq_true, decide_eq_true_eq] at hw
      have := (List.all_eq_true.mp parseBackB_uintRange) l
        (by simp only [List.mem_range]; omega)
      simpa [hw.1.1, hw.1.2, hw.2] using this
  | array m len => simp [isPrimB] at hp
  | struct n ms => simp [isPrimB] at hp

theorem resolveMembers_prims (env : TEnv) (fuel : Nat) (ms : List (String × FType)) :
    resolveMembers env fuel (ms.map fun p => (p.1, RType.prim p.2)) = .ok ms := by
  induction ms with
  | nil => simp [resolveMembers]
  | cons p rest ih =>
      obtain ⟨n, t⟩ := p
      simp only [List.map_cons]
      rw [resolveMembers, ih]

theorem constructFields_prims (env : TEnv) :
    ∀ (ms : List (String × FType)) (kwargs : List (String × EValue)),
      (∀ p ∈ ms, ∀ vals, lookupA kwargs p.1 ≠ some (EValue.vstruct vals)) →
      constructFields env (ms.map fun p => (p.1, RType.prim p.2)) kwargs =
        .ok (ms.map fun p => (p.1, (lookupA kwargs p.1).getD EValue.vnone)) := by
  intro ms kwargs h
  induction ms with
  | nil => simp [constructFields]
  | cons p rest ih =>
      obtain ⟨n, t⟩ := p
      have ht := ih (fun q hq => h q (List.mem_cons_of_mem _ hq))
      simp only [List.map_cons]
      rw [constructFields]
      cases hl : lookupA kwargs n with
      | none => rw [ht]; simp [hl]
      | some v =>
          cases v with
          | vstruct vals => exact absurd hl (h (n, t) (List.mem_cons_self _ _) vals)
          | vint i => rw [ht]; simp [hl]
          | vbool b => rw [ht]; simp [hl]
          | vbytes bs => rw [ht]; simp [hl]
          | vstr s => rw [ht]; simp [hl]
          | varray vs => rw [ht]; simp [hl]
          | vnone => rw [ht]; simp [hl]

theorem lookups_id : ∀ (ms : List (String × FType)) (vals : List (String × EValue)),
    vals.map (·.1) = ms.map (·.1) → (ms.map (·.1)).Nodup →
    (ms.map fun p => (p.1, (lookupA vals p.1).getD EValue.vnone)) = vals := by
  intro ms
  induction ms with
  | nil =>
      intro vals hkeys hnd
      simp only [List.map_nil, List.map_eq_nil_iff] at hkeys ⊢
      exact hkeys.symm ▸ rfl
  | cons p rest ih =>
      intro vals hkeys hnd
      obtain ⟨n, t⟩ := p
      cases vals with
      | nil => simp at hkeys
      | cons q vrest =>
          obtain ⟨n2, v⟩ := q
          simp only [List.map_cons, List.cons.injEq] at hkeys
          obtain ⟨hn2, hrest⟩ := hkeys
          subst hn2
          simp only [List.map_cons, List.nodup_cons] at hnd
          have hnot : ∀ q ∈ rest, q.1 ≠ n2 := by
            intro q hq hcon
            exact hnd.1 (hcon ▸ List.mem_map_of_mem (·.1) hq)
          have hhead : lookupA ((n2, v) :: vrest) n2 = some v := by simp [lookupA]
          have hmap : List.map (fun p => (p.1, (lookupA ((n2, v) :: vrest) p.1).getD
                EValue.vnone)) rest
              = List.map (fun p => (p.1, (lookupA vrest p.1).getD EValue.vnone)) rest := by
            apply List.map_congr_left
            intro q hq
            have h2 : ¬(n2 = q.1) := fun hc => hnot q hq hc.symm
            simp [lookupA, h2]
          simp only [List.map_cons, hhead, Option.getD_some]
          rw [hmap, ih vrest hrest hnd.2]

theorem noDict_lookup {vals : List (String × EValue)} (h : noDictB vals = true) :
    ∀ n sub, lookupA vals n ≠ some (EValue.vstruct sub) := by
  intro n sub hcon
  have hm := lookupA_mem vals n _ hcon
  have := (List.all_eq_true.mp h) _ hm
  simp at this

theorem dataDictL_id : ∀ vals : List (String × EValue),
    noDictB vals = true → dataDictL vals = vals := by
  intro vals h
  induction vals with
  | nil => simp [dataDictL]
  | cons p rest ih =>
      obtain ⟨n, v⟩ := p
      simp only [noDictB, List.all_cons, Bool.and_eq_true] at h
      have ht : noDictB rest = true := h.2
      cases v with
      | vstruct sub => simp at h
      | vint i => simp [dataDictL, ih ht]
      | vbool b => simp [dataDictL, ih ht]
      | vbytes bs => simp [dataDictL, ih ht]
      | vstr s => simp [dataDictL, ih ht]
      | varray vs => simp [dataDictL, ih ht]
      | vnone => simp [dataDictL, ih ht]

theorem gatherMember_prim (t : FType) (acc : List STy) (h : isPrimB t = true) :
    gatherMember t acc = acc := by
  cases t with
  | struct n ms => simp [isPrimB] at h
  | address => simp [gatherMember]
  | boolean => simp [gatherMember]
  | string => simp [gatherMember]
  | bytes n => simp [gatherMember]
  | int l => simp [gatherMember]
  | uint l => simp [gatherMember]
  | array m len => simp [gatherMember]

theorem gatherFields_prim : ∀ (ms : List (String × FType)) (acc : List STy),
    (∀ p ∈ ms, isPrimB p.2 = true) → gatherFields ms acc = acc := by
  intro ms
  induction ms with
  | nil => intro acc h; rw [gatherFields]
  | cons p rest ih =>
      intro acc h
      obtain ⟨n, t⟩ := p
      rw [gatherFields, gatherMember_prim t acc (h (n, t) (List.mem_cons_self _ _))]
      exact ih acc (fun q hq => h q (List.mem_cons_of_mem _ hq))

theorem setA_append {α : Type} : ∀ (l : List (String × α)) (k : String) (v : α),
    k ∉ l.map (·.1) → setA l k v = l ++ [(k, v)] := by
  intro l k v h
  induction l with
  | nil => simp [setA]
  | cons p rest ih =>
      obtain ⟨n, w⟩ := p
      simp only [List.map_cons, List.mem_cons] at h
      push_neg at h
      rw [setA, if_neg (fun hc => h.1 hc.symm), ih h.2]
      simp

theorem pass1Attr_flat : ∀ (ms : List (String × FType)) (table : List (String × Option RType))
    (unful : List (String × String)),
    (∀ p ∈ ms, parseSolType (typeNameF p.2) = .ok (some p.2)) →
    (∀ p ∈ ms, p.1 ∉ table.map (·.1)) →
    (ms.map (·.1)).Nodup →
    pass1Attr (memberStrings ms) table unful =
      .ok (table ++ ms.map (fun p => (p.1, some (RType.prim p.2))), unful) := by
  intro ms
  induction ms with
  | nil =>
      intro table unful h1 h2 h3
      simp [memberStrings, pass1Attr]
  | cons p rest ih =>
      intro table unful hparse hdisj hnd
      obtain ⟨n, t⟩ := p
      simp only [memberStrings, List.map_cons] at ih ⊢
      rw [pass1Attr, hparse (n, t) (List.mem_cons_self _ _)]
      simp only []
      rw [setA_append _ _ _ (hdisj (n, t) (List.mem_cons_self _ _))]
      simp only [List.map_cons, List.nodup_cons] at hnd
      rw [ih (table ++ [(n, some (RType.prim t))]) unful
        (fun q hq => hparse q (List.mem_cons_of_mem _ hq))
        (fun q hq => by
          simp only [List.map_append, List.mem_append]
          push_neg
          refine ⟨hdisj q (List.mem_cons_of_mem _ hq), ?_⟩
          intro hc
          simp only [List.map_cons, List.map_nil, List.mem_singleton] at hc
          exact hnd.1 (hc ▸ List.mem_map_of_mem (·.1) hq))
        hnd.2]
      simp

theorem attrMembers_prims : ∀ ms : List (String × FType),
    attrMembers (ms.map (fun p => (p.1, some (RType.prim p.2)))) =
      ms.map (fun p => (p.1, RType.prim p.2)) := by
  intro ms
  induction ms with
  | nil => rfl
  | cons p rest ih =>
      simp only [List.map_cons, attrMembers, List.filterMap_cons] at ih ⊢
      rw [ih]
      rfl

/-! ### C7 — from_message success characterisation -/

/-- C3 (amended): for a record and domain whose members are well-formed
basic (non-array, non-struct) types, with distinct member names, with
values for exactly the declared members, none of them nested instances,
and with the record's type name distinct from `EIP712Domain`,
`from_message` after `to_message` succeeds and returns a pair that is
structurally equal to the originals: identical canonical signatures and
identical `encode_value` data. The unamended claim fails for types the
application can also construct, such as a member typed as an array of a
struct. -/
theorem claim_C3 (k : List Nat → List Nat) (self domain : SInstance)
    (hdn : domain.tyName = "EIP712Domain")
    (hsn : self.tyName ≠ "EIP712Domain")
    (hsprim : ∀ p ∈ self.members, isPrimB p.2 = true ∧ wfTypeB p.2 = true)
    (hdprim : ∀ p ∈ domain.members, isPrimB p.2 = true ∧ wfTypeB p.2 = true)
    (hskeys : self.values.map (·.1) = self.members.map (·.1))
    (hdkeys : domain.values.map (·.1) = domain.members.map (·.1))
    (hsnd : (self.members.map (·.1)).Nodup)
    (hdnd : (domain.members.map (·.1)).Nodup)
    (hsdict : noDictB self.values = true)
    (hddict : noDictB domain.values = true) :
    fromMessage (toMessage self domain) =
      .ok (flatEnv self domain, ⟨self.tyName, self.values⟩, ⟨"EIP712Domain", domain.values⟩) ∧
    pEncodeType (flatEnv self domain) 1 ⟨self.tyName, self.values⟩ =
      .ok (encodeType self.tyName self.members) ∧
    pEncodeData k (flatEnv self domain) 1 ⟨self.tyName, self.values⟩ =
      encodeData k self.members self.values ∧
    pEncodeType (flatEnv self domain) 1 ⟨"EIP712Domain", domain.values⟩ =
      .ok (encodeType domain.tyName domain.members) ∧
    pEncodeData k (flatEnv self domain) 1 ⟨"EIP712Domain", domain.values⟩ =
      encodeData k domain.members domain.values := by
  have hsparse : ∀ p ∈ self.members, parseSolType (typeNameF p.2) = .ok (some p.2) :=
    fun p hp => parseBackB_sound _ (scalar_parseBack _ (hsprim p hp).1 (hsprim p hp).2)
  have hdparse : ∀ p ∈ domain.members, parseSolType (typeNameF p.2) = .ok (some p.2) :=
    fun p hp => parseBackB_sound _ (scalar_parseBack _ (hdprim p hp).1 (hdprim p hp).2)
  have hgather : gatherFields self.members [] = [] :=
    gatherFields_prim _ _ (fun p hp => (hsprim p hp).1)
  have hne : self.tyName ≠ domain.tyName := fun hc => hsn (hdn ▸ hc)
  have hne2 : domain.tyName ≠ self.tyName := fun hc => hne hc.symm
  have hM : toMessage self domain =
      ⟨self.tyName,
       [(domain.tyName, memberStrings domain.members),
        (self.tyName, memberStrings self.members)],
       domain.values, self.values⟩ := by
    simp [toMessage, hgather, dedupByName, hne, dataDictL_id _ hsdict, dataDictL_id _ hddict]
  have hp1 : pass1 [(domain.tyName, memberStrings domain.members),
      (self.tyName, memberStrings self.members)] =
      .ok ([(domain.tyName, domain.members.map fun p => (p.1, some (RType.prim p.2))),
            (self.tyName, self.members.map fun p => (p.1, some (RType.prim p.2)))], []) := by
    rw [pass1, pass1Attr_flat domain.members [] [] hdparse (by simp) hdnd]
    simp only []
    rw [pass1, pass1Attr_flat self.members [] [] hsparse (by simp) hsnd]
    simp only []
    rw [pass1]
    simp
  have henv : List.map (fun p => (p.1, attrMembers p.2))
      [(domain.tyName, domain.members.map fun p => (p.1, some (RType.prim p.2))),
       (self.tyName, self.members.map fun p => (p.1, some (RType.prim p.2)))] =
      flatEnv self domain := by
    simp only [List.map_cons, List.map_nil, attrMembers_prims, flatEnv]
  have hlookS : lookupA (flatEnv self domain) self.tyName =
      some (self.members.map fun p => (p.1, RType.prim p.2)) := by
    simp [flatEnv, lookupA, hne2]
  have hlookD : lookupA (flatEnv self domain) "EIP712Domain" =
      some (domain.members.map fun p => (p.1, RType.prim p.2)) := by
    simp [flatEnv, lookupA, hdn]
  have hcS : constructFields (flatEnv self domain)
      (self.members.map fun p => (p.1, RType.prim p.2)) self.values = .ok self.values := by
    rw [constructFields_prims _ _ _ (fun p hp vals => noDict_lookup hsdict p.1 vals)]
    rw [lookups_id _ _ hskeys hsnd]
  have hcD : constructFields (flatEnv self domain)
      (domain.members.map fun p => (p.1, RType.prim p.2)) domain.values = .ok domain.values := by
    rw [constructFields_prims _ _ _ (fun p hp vals => noDict_lookup hddict p.1 vals)]
    rw [lookups_id _ _ hdkeys hdnd]
  refine ⟨?_, ?_, ?_, ?_, ?_⟩
  · rw [hM, fromMessage]
    simp only []
    rw [hp1]
    simp only [pass2]
    rw [henv]
    rw [hlookS, hlookD]
    simp only []
    rw [hcS]
    simp only []
    rw [hcD]
  · rw [pEncodeType]
    simp only []
    rw [hlookS]
    simp only []
    rw [resolveMembers_prims]
  · rw [pEncodeData]
    simp only []
    rw [hlookS]
    simp only []
    rw [resolveMembers_prims]
  · rw [pEncodeType]
    simp only []
    rw [hlookD]
    simp only []
    rw [resolveMembers_prims, hdn]
  · rw [pEncodeData]
    simp only []
    rw [hlookD]
    simp only []
    rw [resolveMembers_prims]

/-- Witness for the amended C3 at a one-field record and a
`make_domain(name=...)`-shaped domain. -/
theorem claim_C3_witness :
    fromMessage (toMessage struct0 dom0) =
      .ok (flatEnv struct0 dom0, ⟨struct0.tyName, struct0.values⟩,
           ⟨"EIP712Domain", dom0.values⟩) ∧
    pEncodeType (flatEnv struct0 dom0) 1 ⟨struct0.tyName, struct0.values⟩ =
      .ok (encodeType struct0.tyName struct0.members) ∧
    pEncodeData k0 (flatEnv struct0 dom0) 1 ⟨struct0.tyName, struct0.values⟩ =
      encodeData k0 struct0.members struct0.values ∧
    pEncodeType (flatEnv struct0 dom0) 1 ⟨"EIP712Domain", dom0.values⟩ =
      .ok (encodeType dom0.tyName dom0.members) ∧
    pEncodeData k0 (flatEnv struct0 dom0) 1 ⟨"EIP712Domain", dom0.values⟩ =
      encodeData k0 dom0.members dom0.values :=
  claim_C3 k0 struct0 dom0 rfl (by decide) (by decide) (by decide) rfl rfl
    (by decide) (by decide) rfl rfl

/-- C3 counterexample: a record with an array-of-struct member is
constructible by application code, but its `to_message` output leaves the
struct `A` out of `types` — `_gather_reference_structs` skips `Array`
members — so `from_message` on it raises a `KeyError` instead of
returning a structurally equal pair. -/
theorem claim_C3_counterexample :
    (mkInstance bInst.tyName bInst.members [("a", EValue.varray [])]).isOk = true ∧
    (fromMessage (toMessage bInst dom0)).isOk = false := by
  constructor
  · have hmk0 : mkValues ([] : List (String × FType)) [("a", EValue.varray [])] = .ok [] := by
      rw [mkValues.eq_def]
    have hmk : mkValues [("a", FType.array (FType.struct "A" [("x", FType.uint 256)]) 0)]
        [("a", EValue.varray [])] = .ok [("a", EValue.varray [])] := by
      rw [mkValues.eq_def]
      simp [lookupV, hmk0]
    simp [mkInstance, hmk, bInst, Except.isOk, Except.toBool]
  · have hM : toMessage bInst dom0 =
        ⟨"B", [("EIP712Domain", [("name", "string")]), ("B", [("a", "A[]")])],
         [("name", EValue.vstr "A")], [("a", EValue.varray [])]⟩ := by
      simp [toMessage, bInst, dom0, gatherFields, gatherMember, dedupByName, dataDictL,
        memberStrings, typeNameF, natStr, natChars, natCharsAux, digitChar]
    rw [hM]
    decide

